import Mathlib

/-!
Verification of the Prism-in-browser HTTP adapter (src/unnamed/part_001).

This file gives a shallow embedding, in Lean 4, of the code of the repository:
the JavaScript value model, the body serializers, the preference decoder, the
query-multimap normalization, the violation header construction, the request
body parser and the post-engine response pipeline with its error translator.
Machine strings are Lean strings, JS objects are association lists, numbers in
JSON bodies are modelled as integers (floating point is out of scope), and the
fp-ts TaskEither error channel is an explicit Except layer, with a second
Except layer for raw JavaScript throws (promise rejections) that bypass it.
-/

/-- A JavaScript runtime value, as far as the adapter observes it: the unit of
request and response bodies, preference-source fields and diagnostic codes.
Numbers are modelled as integers; floating point does not occur in the claims
settled here. -/
inductive JsValue where
  | undefined : JsValue
  | null : JsValue
  | bool : Bool → JsValue
  | num : Int → JsValue
  | str : String → JsValue
  | arr : List JsValue → JsValue
  | obj : List (String × JsValue) → JsValue

/-- JavaScript truthiness, as used by the source in tests such as
negated payloads and content types. -/
def truthy : JsValue → Bool
  | .undefined => false
  | .null => false
  | .bool b => b
  | .num n => decide (n ≠ 0)
  | .str s => !s.isEmpty
  | .arr _ => true
  | .obj _ => true

/-- The string produced by the JavaScript typeof operator. -/
def typeofStr : JsValue → String
  | .undefined => "undefined"
  | .null => "object"
  | .bool _ => "boolean"
  | .num _ => "number"
  | .str _ => "string"
  | .arr _ => "object"
  | .obj _ => "object"

/-- True exactly on the undefined value. -/
def isUndef : JsValue → Bool
  | .undefined => true
  | _ => false

/-! ## Decimal digits (the integer part of JSON.stringify on numbers) -/

/-- The character of a single decimal digit. -/
def digitChar : Nat → Char
  | 0 => '0' | 1 => '1' | 2 => '2' | 3 => '3' | 4 => '4'
  | 5 => '5' | 6 => '6' | 7 => '7' | 8 => '8' | _ => '9'

/-- The character of a single hexadecimal digit, lowercase. -/
def hexDigitChar : Nat → Char
  | 0 => '0' | 1 => '1' | 2 => '2' | 3 => '3' | 4 => '4'
  | 5 => '5' | 6 => '6' | 7 => '7' | 8 => '8' | 9 => '9'
  | 10 => 'a' | 11 => 'b' | 12 => 'c' | 13 => 'd' | 14 => 'e' | _ => 'f'

/-- The decimal digits of a natural number, most significant first, as
JavaScript number-to-string conversion renders integral values. -/
def natChars (n : Nat) : List Char :=
  if n < 10 then [digitChar n]
  else natChars (n / 10) ++ [digitChar (n % 10)]
termination_by n
decreasing_by exact Nat.div_lt_self (by omega) (by omega)

/-- The decimal rendering of an integer, a minus sign in front of negatives. -/
def intChars : Int → List Char
  | .ofNat n => natChars n
  | .negSucc m => '-' :: natChars (m + 1)

/-! ## String escaping (the Quote step of JSON.stringify) -/

/-- The escape sequence one character contributes inside a JSON string
literal: named escapes for the quote, the backslash and the common control
characters, a u-escape for the remaining control characters, the character
itself otherwise. This is exactly the quoting JSON.stringify performs on the
characters representable here. -/
def escChar (c : Char) : List Char :=
  if c = '"' then ['\\', '"']
  else if c = '\\' then ['\\', '\\']
  else if c = '\x08' then ['\\', 'b']
  else if c = '\x09' then ['\\', 't']
  else if c = '\x0a' then ['\\', 'n']
  else if c = '\x0c' then ['\\', 'f']
  else if c = '\x0d' then ['\\', 'r']
  else if c.toNat < 32 then
    ['\\', 'u', '0', '0', hexDigitChar (c.toNat / 16), hexDigitChar (c.toNat % 16)]
  else [c]

/-- Escape every character of a string body. -/
def escString : List Char → List Char
  | [] => []
  | c :: cs => escChar c ++ escString cs

/-! ## JSON.stringify -/

/-- Does the rest of an object hold at least one member that JSON.stringify
will keep (a member whose value is not undefined)? Decides whether a comma
follows the member just written. -/
def hasDefinedMember (kvs : List (String × JsValue)) : Bool :=
  kvs.any (fun kv => !isUndef kv.2)

mutual

/-- The character stream JSON.stringify produces for a value appearing in
serialized position: undefined renders as null (its array-element behaviour;
the top level is handled by jsStringify), objects drop members whose value is
undefined, and no whitespace is emitted. -/
def jsonChars : JsValue → List Char
  | .undefined => ['n', 'u', 'l', 'l']
  | .null => ['n', 'u', 'l', 'l']
  | .bool false => ['f', 'a', 'l', 's', 'e']
  | .bool true => ['t', 'r', 'u', 'e']
  | .num i => intChars i
  | .str s => '"' :: escString s.data ++ ['"']
  | .arr xs => '[' :: jsonCharsElems xs ++ [']']
  | .obj kvs => '{' :: jsonCharsMembers kvs ++ ['}']

/-- Array elements, comma separated. -/
def jsonCharsElems : List JsValue → List Char
  | [] => []
  | [x] => jsonChars x
  | x :: y :: xs => jsonChars x ++ ',' :: jsonCharsElems (y :: xs)

/-- Object members, comma separated, members with undefined values dropped
exactly as JSON.stringify drops them. -/
def jsonCharsMembers : List (String × JsValue) → List Char
  | [] => []
  | (k, v) :: kvs =>
    if isUndef v then jsonCharsMembers kvs
    else if hasDefinedMember kvs then
      '"' :: escString k.data ++ '"' :: ':' :: jsonChars v ++ ',' :: jsonCharsMembers kvs
    else
      '"' :: escString k.data ++ '"' :: ':' :: jsonChars v ++ jsonCharsMembers kvs

end

/-- JSON.stringify as a whole: undefined at the top level yields no string at
all (JavaScript undefined), every other value yields its encoding. -/
def jsStringify (v : JsValue) : Option String :=
  match v with
  | .undefined => none
  | v => some (String.mk (jsonChars v))

/-- The encoding of a value as a Lean string. -/
def jsonEncode (v : JsValue) : String := String.mk (jsonChars v)

/-! ## JSON.parse

A recursive-descent model of the JavaScript JSON.parse builtin, on the
fragment the adapter exercises: integral numerals (floating point is out of
scope), strings with the standard escapes, arrays and objects, with
whitespace skipped between tokens. Nesting depth is bounded by a fuel
parameter; the top level supplies more fuel than any input can consume. -/

/-- Is a character JSON whitespace? -/
def isWsChar (c : Char) : Bool :=
  c = ' ' || c = '\x09' || c = '\x0a' || c = '\x0d'

/-- Skip JSON whitespace. -/
def skipWs : List Char → List Char
  | [] => []
  | c :: cs => if isWsChar c then skipWs cs else c :: cs

/-- The numeric value of a hexadecimal digit character. -/
def hexVal? (c : Char) : Option Nat :=
  if c.isDigit then some (c.toNat - 48)
  else if 'a' ≤ c ∧ c ≤ 'f' then some (c.toNat - 87)
  else if 'A' ≤ c ∧ c ≤ 'F' then some (c.toNat - 55)
  else none

/-- Parse the body of a JSON string literal after its opening quote: the
decoded characters and the input after the closing quote. Raw control
characters are rejected as JSON.parse rejects them. -/
def parseStringBody : List Char → Option (List Char × List Char)
  | [] => none
  | c :: cs =>
    if c = '"' then some ([], cs)
    else if c = '\\' then
      match cs with
      | [] => none
      | e :: cs' =>
        if e = '"' then (parseStringBody cs').map (fun p => ('"' :: p.1, p.2))
        else if e = '\\' then (parseStringBody cs').map (fun p => ('\\' :: p.1, p.2))
        else if e = '/' then (parseStringBody cs').map (fun p => ('/' :: p.1, p.2))
        else if e = 'b' then (parseStringBody cs').map (fun p => ('\x08' :: p.1, p.2))
        else if e = 'f' then (parseStringBody cs').map (fun p => ('\x0c' :: p.1, p.2))
        else if e = 'n' then (parseStringBody cs').map (fun p => ('\x0a' :: p.1, p.2))
        else if e = 'r' then (parseStringBody cs').map (fun p => ('\x0d' :: p.1, p.2))
        else if e = 't' then (parseStringBody cs').map (fun p => ('\x09' :: p.1, p.2))
        else if e = 'u' then
          match cs' with
          | h1 :: h2 :: h3 :: h4 :: cs'' =>
            match hexVal? h1, hexVal? h2, hexVal? h3, hexVal? h4 with
            | some v1, some v2, some v3, some v4 =>
              (parseStringBody cs'').map
                (fun p => (Char.ofNat (v1 * 4096 + v2 * 256 + v3 * 16 + v4) :: p.1, p.2))
            | _, _, _, _ => none
          | _ => none
        else none
    else if c.toNat < 32 then none
    else (parseStringBody cs).map (fun p => (c :: p.1, p.2))
termination_by l => l.length
decreasing_by all_goals (simp_all; try omega)

/-- Accumulate a maximal run of decimal digits. -/
def digitsAcc : List Char → Nat → Nat × List Char
  | [], acc => (acc, [])
  | c :: cs, acc =>
    if c.isDigit then digitsAcc cs (acc * 10 + (c.toNat - 48))
    else (acc, c :: cs)

/-- Parse a natural numeral: at least one digit, maximal munch. -/
def parseNatChars : List Char → Option (Nat × List Char)
  | [] => none
  | c :: cs => if c.isDigit then some (digitsAcc (c :: cs) 0) else none

/-- Drop an expected literal keyword tail. -/
def dropLit : List Char → List Char → Option (List Char)
  | [], l => some l
  | k :: ks, c :: cs => if c = k then dropLit ks cs else none
  | _ :: _, [] => none

mutual

/-- Parse one JSON value, leading whitespace allowed, returning the value and
the rest of the input. -/
def parseVal : Nat → List Char → Option (JsValue × List Char)
  | 0, _ => none
  | fuel + 1, input =>
    match skipWs input with
    | [] => none
    | c :: cs =>
      if c = 'n' then (dropLit ['u', 'l', 'l'] cs).map (fun r => (.null, r))
      else if c = 't' then (dropLit ['r', 'u', 'e'] cs).map (fun r => (.bool true, r))
      else if c = 'f' then (dropLit ['a', 'l', 's', 'e'] cs).map (fun r => (.bool false, r))
      else if c = '"' then
        (parseStringBody cs).map (fun p => (.str (String.mk p.1), p.2))
      else if c = '-' then
        (parseNatChars cs).map (fun p => (.num (-(p.1 : Int)), p.2))
      else if c = '[' then
        match skipWs cs with
        | ']' :: r => some (.arr [], r)
        | _ => (parseElems fuel cs).map (fun p => (.arr p.1, p.2))
      else if c = '{' then
        match skipWs cs with
        | '}' :: r => some (.obj [], r)
        | _ => (parseMembers fuel cs).map (fun p => (.obj p.1, p.2))
      else
        (parseNatChars (c :: cs)).map (fun p => (.num (p.1 : Int), p.2))

/-- Parse the elements of a non-empty array after the opening bracket,
consuming the closing bracket. -/
def parseElems : Nat → List Char → Option (List JsValue × List Char)
  | 0, _ => none
  | fuel + 1, input =>
    match parseVal fuel input with
    | none => none
    | some (v, rest) =>
      match skipWs rest with
      | ',' :: r => (parseElems fuel r).map (fun p => (v :: p.1, p.2))
      | ']' :: r => some ([v], r)
      | _ => none

/-- Parse the members of a non-empty object after the opening brace,
consuming the closing brace. -/
def parseMembers : Nat → List Char → Option (List (String × JsValue) × List Char)
  | 0, _ => none
  | fuel + 1, input =>
    match skipWs input with
    | '"' :: cs =>
      match parseStringBody cs with
      | none => none
      | some (k, rest1) =>
        match skipWs rest1 with
        | ':' :: rest2 =>
          match parseVal fuel rest2 with
          | none => none
          | some (v, rest3) =>
            match skipWs rest3 with
            | ',' :: r => (parseMembers fuel r).map (fun p => ((String.mk k, v) :: p.1, p.2))
            | '}' :: r => some ([(String.mk k, v)], r)
            | _ => none
        | _ => none
    | _ => none

end

/-- The severity enumeration of @stoplight/types, whose reverse index map
yields the names used throughout the adapter. -/
inductive DiagnosticSeverity where
  | error | warning | information | hint
deriving DecidableEq

/-- The name string of a severity: the TypeScript enum reverse lookup
DiagnosticSeverity[s]. -/
def severityName : DiagnosticSeverity → String
  | .error => "Error"
  | .warning => "Warning"
  | .information => "Information"
  | .hint => "Hint"

/-- An engine diagnostic (IPrismDiagnostic): an optional location path, a
severity, a code that may be a string, a number or absent, and an optional
message. -/
structure PrismDiagnostic where
  path : Option (List String) := none
  severity : DiagnosticSeverity
  code : JsValue := .undefined
  message : Option String := none

/-- The ValidationError shape of the source: an ordered location path, the
severity name, and the code and message carried over from the diagnostic. -/
structure ValidationError where
  location : List String
  severity : String
  code : JsValue
  message : Option String

/-- A raw JavaScript throw (equally, a rejected promise): the errors the
adapter creates carry a name, a message, and optionally a status, a
problem-detail text, extra headers and a violation list. This is the shape
the error translator at the top of the pipeline reads. -/
structure JsError where
  name : String := "Error"
  message : String := ""
  status : Option Nat := none
  detail : Option String := none
  additionalHeaders : Option (List (String × String)) := none
  validation : Option (List ValidationError) := none

/-- The model of JSON.parse: parse one value surrounded by whitespace and
demand the input is exhausted, failing with a SyntaxError otherwise. -/
def jsonParse (s : String) : Except JsError JsValue :=
  match parseVal (s.data.length + 1) s.data with
  | some (v, rest) =>
    if skipWs rest = [] then .ok v
    else .error { name := "SyntaxError", message := "Unexpected token in JSON" }
  | none => .error { name := "SyntaxError", message := "Unexpected token in JSON" }

/-! ## Fuel accounting and JSON safety -/

mutual

/-- Fuel needed by parseVal to reparse an encoded value. -/
def jsize : JsValue → Nat
  | .arr xs => 1 + jsizeElems xs
  | .obj kvs => 1 + jsizeMembers kvs
  | _ => 1

/-- Fuel needed by parseElems for an element list. -/
def jsizeElems : List JsValue → Nat
  | [] => 0
  | x :: xs => 1 + jsize x + jsizeElems xs

/-- Fuel needed by parseMembers for a member list. -/
def jsizeMembers : List (String × JsValue) → Nat
  | [] => 0
  | kv :: kvs => 1 + jsize kv.2 + jsizeMembers kvs

end

/-- No key occurs twice: a list of strings that could be the keys of one
JavaScript object. -/
def nodupKeysB : List String → Bool
  | [] => true
  | k :: ks => !(ks.contains k) && nodupKeysB ks

mutual

/-- A JSON-safe value: representable as the result of parsing JSON text.
No undefined anywhere, and object keys pairwise distinct, as the keys of an
actual JavaScript object are. -/
def jsonSafe : JsValue → Bool
  | .undefined => false
  | .null => true
  | .bool _ => true
  | .num _ => true
  | .str _ => true
  | .arr xs => jsonSafeElems xs
  | .obj kvs => nodupKeysB (kvs.map Prod.fst) && jsonSafeMembers kvs

/-- Every element JSON-safe. -/
def jsonSafeElems : List JsValue → Bool
  | [] => true
  | x :: xs => jsonSafe x && jsonSafeElems xs

/-- Every member value JSON-safe. -/
def jsonSafeMembers : List (String × JsValue) → Bool
  | [] => true
  | kv :: kvs => jsonSafe kv.2 && jsonSafeMembers kvs

end

/-! ## Elementary lemmas on digits and characters -/

theorem digitChar_isDigit (d : Nat) : (digitChar d).isDigit = true := by
  unfold digitChar
  split <;> decide

theorem digitChar_toNat (d : Nat) (h : d < 10) : (digitChar d).toNat = 48 + d := by
  interval_cases d <;> rfl

theorem natChars_ne_nil (n : Nat) : natChars n ≠ [] := by
  unfold natChars
  split
  · simp
  · simp

theorem natChars_all_digits : ∀ (n : Nat), ∀ c ∈ natChars n, c.isDigit = true
  | n => by
    unfold natChars
    split
    · intro c hc
      simp at hc
      subst hc
      exact digitChar_isDigit n
    · intro c hc
      rcases List.mem_append.1 hc with h | h
      · exact natChars_all_digits (n / 10) c h
      · simp at h
        subst h
        exact digitChar_isDigit (n % 10)
termination_by n => n
decreasing_by exact Nat.div_lt_self (by omega) (by omega)

theorem isDigit_not_ws {c : Char} (h : c.isDigit = true) : isWsChar c = false := by
  unfold isWsChar
  by_contra hw
  simp only [Bool.not_eq_false, Bool.or_eq_true, decide_eq_true_eq] at hw
  rcases hw with ((h1 | h2) | h3) | h4
  · subst h1; exact absurd h (by decide)
  · subst h2; exact absurd h (by decide)
  · subst h3; exact absurd h (by decide)
  · subst h4; exact absurd h (by decide)

theorem isDigit_ne {c : Char} (h : c.isDigit = true) {d : Char} (hd : d.isDigit = false) :
    c ≠ d := by
  intro he
  subst he
  rw [h] at hd
  exact absurd hd (by decide)

theorem skipWs_not_ws {c : Char} (h : isWsChar c = false) (cs : List Char) :
    skipWs (c :: cs) = c :: cs := by
  unfold skipWs
  rw [h]
  simp

/-- The continuation after a numeral must not begin with a digit, or maximal
munch would swallow it; every continuation the encoder produces satisfies
this. -/
def nonDigitHead : List Char → Prop
  | [] => True
  | c :: _ => c.isDigit = false

/-- The numeric value accumulated over a digit string. -/
def digitsVal (acc : Nat) (l : List Char) : Nat :=
  List.foldl (fun a c => a * 10 + (c.toNat - 48)) acc l

theorem digitsAcc_append : ∀ (l rest : List Char) (acc : Nat),
    (∀ c ∈ l, c.isDigit = true) → nonDigitHead rest →
    digitsAcc (l ++ rest) acc = (digitsVal acc l, rest) := by
  intro l
  induction l with
  | nil =>
    intro rest acc _ hr
    cases rest with
    | nil => rfl
    | cons c cs =>
      simp only [List.nil_append, digitsAcc, digitsVal, List.foldl_nil]
      rw [hr]
      simp
  | cons c cs ih =>
    intro rest acc hd hr
    have hc : c.isDigit = true := hd c (by simp)
    simp only [List.cons_append, digitsAcc]
    rw [hc]
    simp only [if_true, List.append_eq]
    rw [ih rest _ (fun x hx => hd x (by simp [hx])) hr]
    simp [digitsVal]

theorem natChars_digitsVal : ∀ (n acc : Nat),
    digitsVal acc (natChars n) = acc * 10 ^ (natChars n).length + n
  | n, acc => by
    unfold natChars
    split
    · simp [digitsVal, digitChar_toNat n (by omega)]
    · rw [show digitsVal acc (natChars (n / 10) ++ [digitChar (n % 10)]) =
          digitsVal (digitsVal acc (natChars (n / 10))) [digitChar (n % 10)] by
        simp [digitsVal]]
      rw [natChars_digitsVal (n / 10) acc]
      simp only [digitsVal, List.foldl_cons, List.foldl_nil, List.length_append,
        List.length_cons, List.length_nil]
      rw [digitChar_toNat (n % 10) (by omega)]
      have hmod : 48 + n % 10 - 48 = n % 10 := by omega
      rw [hmod]
      have hpow : 10 ^ ((natChars (n / 10)).length + (0 + 1)) =
          10 ^ (natChars (n / 10)).length * 10 := by
        rw [Nat.zero_add, Nat.pow_succ]
      rw [hpow]
      have := Nat.div_add_mod n 10
      ring_nf
      omega
termination_by n => n
decreasing_by exact Nat.div_lt_self (by omega) (by omega)

theorem parseNatChars_natChars (n : Nat) (rest : List Char) (hr : nonDigitHead rest) :
    parseNatChars (natChars n ++ rest) = some (n, rest) := by
  obtain ⟨c, cs, hcons⟩ : ∃ c cs, natChars n = c :: cs := by
    cases h : natChars n with
    | nil => exact absurd h (natChars_ne_nil n)
    | cons c cs => exact ⟨c, cs, rfl⟩
  have hdig : c.isDigit = true := natChars_all_digits n c (by rw [hcons]; simp)
  rw [hcons]
  simp only [List.cons_append, parseNatChars]
  rw [hdig]
  simp only [if_true]
  rw [show (c :: (cs ++ rest)) = (c :: cs) ++ rest by simp]
  rw [digitsAcc_append (c :: cs) rest 0
    (fun x hx => natChars_all_digits n x (by rw [hcons]; exact hx)) hr]
  rw [← hcons, natChars_digitsVal n 0]
  simp

theorem dropLit_append : ∀ (ks rest : List Char), dropLit ks (ks ++ rest) = some rest := by
  intro ks
  induction ks with
  | nil => intro rest; rfl
  | cons k ks ih =>
    intro rest
    simp only [List.cons_append, dropLit, if_pos rfl]
    exact ih rest

theorem hexVal_hexDigitChar (d : Nat) (h : d < 16) : hexVal? (hexDigitChar d) = some d := by
  interval_cases d <;> decide

theorem parseStringBody_esc : ∀ (l rest : List Char),
    parseStringBody (escString l ++ '"' :: rest) = some (l, rest) := by
  intro l
  induction l with
  | nil =>
    intro rest
    simp only [escString, List.nil_append]
    rw [parseStringBody.eq_def]
    simp
  | cons c cs ih =>
    intro rest
    simp only [escString, List.append_assoc]
    unfold escChar
    split_ifs with h1 h2 h3 h4 h5 h6 h7 h8
    · subst h1; rw [parseStringBody.eq_def]; simp [ih rest]
    · subst h2; rw [parseStringBody.eq_def]; simp [ih rest]
    · subst h3; rw [parseStringBody.eq_def]; simp [ih rest]
    · subst h4; rw [parseStringBody.eq_def]; simp [ih rest]
    · subst h5; rw [parseStringBody.eq_def]; simp [ih rest]
    · subst h6; rw [parseStringBody.eq_def]; simp [ih rest]
    · subst h7; rw [parseStringBody.eq_def]; simp [ih rest]
    · have hdiv : c.toNat / 16 < 16 := by omega
      have hmod : c.toNat % 16 < 16 := by omega
      rw [parseStringBody.eq_def]
      simp only [List.cons_append]
      simp only [reduceIte, hexVal_hexDigitChar _ hdiv, hexVal_hexDigitChar _ hmod,
        ih rest, Option.map_some]
      have harith : 0 * 4096 + 0 * 256 + c.toNat / 16 * 16 + c.toNat % 16 = c.toNat := by
        have := Nat.div_add_mod c.toNat 16
        omega
      have h0 : hexVal? '0' = some 0 := by decide
      simp [h0]
      refine ⟨ih rest, ?_⟩
      rw [show c.toNat / 16 * 16 + c.toNat % 16 = c.toNat from by omega]
      exact Char.ofNat_toNat c
    · rw [parseStringBody.eq_def]; simp [h1, h2, h8, ih rest]

theorem jsize_pos : ∀ (j : JsValue), 1 ≤ jsize j := by
  intro j
  cases j <;> simp [jsize]

theorem jsonSafe_not_undef {v : JsValue} (h : jsonSafe v = true) : isUndef v = false := by
  cases v <;> simp_all [jsonSafe, isUndef]

theorem jsonChars_head (j : JsValue) :
    ∃ c cs, jsonChars j = c :: cs ∧ isWsChar c = false ∧ c ≠ ']' := by
  cases j with
  | undefined => exact ⟨'n', ['u', 'l', 'l'], by simp [jsonChars], by decide, by decide⟩
  | null => exact ⟨'n', ['u', 'l', 'l'], by simp [jsonChars], by decide, by decide⟩
  | bool b =>
    cases b with
    | true => exact ⟨'t', ['r', 'u', 'e'], by simp [jsonChars], by decide, by decide⟩
    | false => exact ⟨'f', ['a', 'l', 's', 'e'], by simp [jsonChars], by decide, by decide⟩
  | num i =>
    cases i with
    | ofNat n =>
      obtain ⟨c, cs, hc⟩ : ∃ c cs, natChars n = c :: cs := by
        cases h : natChars n with
        | nil => exact absurd h (natChars_ne_nil n)
        | cons c cs => exact ⟨c, cs, rfl⟩
      have hdig : c.isDigit = true := natChars_all_digits n c (by rw [hc]; simp)
      exact ⟨c, cs, by simp [jsonChars, intChars, hc], isDigit_not_ws hdig,
        isDigit_ne hdig (by decide)⟩
    | negSucc m =>
      exact ⟨'-', natChars (m + 1), by simp [jsonChars, intChars], by decide, by decide⟩
  | str s =>
    exact ⟨'"', escString s.data ++ ['"'], by simp [jsonChars], by decide, by decide⟩
  | arr xs =>
    exact ⟨'[', jsonCharsElems xs ++ [']'], by simp [jsonChars], by decide, by decide⟩
  | obj kvs =>
    exact ⟨'{', jsonCharsMembers kvs ++ ['}'], by simp [jsonChars], by decide, by decide⟩


theorem parseVal_default (f : Nat) (c : Char) (cs : List Char) (hws : isWsChar c = false)
    (h1 : c ≠ 'n') (h2 : c ≠ 't') (h3 : c ≠ 'f') (h4 : c ≠ '"') (h5 : c ≠ '-')
    (h6 : c ≠ '[') (h7 : c ≠ '{') :
    parseVal (f + 1) (c :: cs) =
      (parseNatChars (c :: cs)).map (fun p => (JsValue.num (p.1 : Int), p.2)) := by
  simp only [parseVal]
  rw [skipWs_not_ws hws]
  change (if c = 'n' then (dropLit ['u', 'l', 'l'] cs).map (fun r => (JsValue.null, r))
    else if c = 't' then (dropLit ['r', 'u', 'e'] cs).map (fun r => (JsValue.bool true, r))
    else if c = 'f' then
      (dropLit ['a', 'l', 's', 'e'] cs).map (fun r => (JsValue.bool false, r))
    else if c = '"' then
      (parseStringBody cs).map (fun p => (JsValue.str (String.mk p.1), p.2))
    else if c = '-' then (parseNatChars cs).map (fun p => (JsValue.num (-(p.1 : Int)), p.2))
    else if c = '[' then
      match skipWs cs with
      | ']' :: r => some (JsValue.arr [], r)
      | _ => (parseElems f cs).map (fun p => (JsValue.arr p.1, p.2))
    else if c = '{' then
      match skipWs cs with
      | '}' :: r => some (JsValue.obj [], r)
      | _ => (parseMembers f cs).map (fun p => (JsValue.obj p.1, p.2))
    else (parseNatChars (c :: cs)).map (fun p => (JsValue.num (p.1 : Int), p.2))) = _
  rw [if_neg h1, if_neg h2, if_neg h3, if_neg h4, if_neg h5, if_neg h6, if_neg h7]

theorem parseVal_arr_go (f : Nat) (cs t : List Char) (c0 : Char) (h : skipWs cs = c0 :: t)
    (hne : c0 ≠ ']') :
    parseVal (f + 1) ('[' :: cs) = (parseElems f cs).map (fun p => (JsValue.arr p.1, p.2)) := by
  simp only [parseVal]
  rw [skipWs_not_ws (by decide)]
  change ((match skipWs cs with
    | ']' :: r => some (JsValue.arr [], r)
    | _ => (parseElems f cs).map (fun p => (JsValue.arr p.1, p.2)) :
      Option (JsValue × List Char))) = _
  rw [h]
  split
  · next r heq =>
    injection heq with hh _
    exact absurd hh hne
  · next => rfl

theorem parseVal_obj_go (f : Nat) (cs t : List Char) (c0 : Char) (h : skipWs cs = c0 :: t)
    (hne : c0 ≠ '}') :
    parseVal (f + 1) ('{' :: cs) =
      (parseMembers f cs).map (fun p => (JsValue.obj p.1, p.2)) := by
  simp only [parseVal]
  rw [skipWs_not_ws (by decide)]
  change ((match skipWs cs with
    | '}' :: r => some (JsValue.obj [], r)
    | _ => (parseMembers f cs).map (fun p => (JsValue.obj p.1, p.2)) :
      Option (JsValue × List Char))) = _
  rw [h]
  split
  · next r heq =>
    injection heq with hh _
    exact absurd hh hne
  · next => rfl

theorem parse_correct : ∀ (fuel : Nat),
    (∀ j rest, jsonSafe j = true → jsize j ≤ fuel → nonDigitHead rest →
      parseVal fuel (jsonChars j ++ rest) = some (j, rest)) ∧
    (∀ xs rest, xs ≠ [] → jsonSafeElems xs = true → jsizeElems xs ≤ fuel → nonDigitHead rest →
      parseElems fuel (jsonCharsElems xs ++ ']' :: rest) = some (xs, rest)) ∧
    (∀ kvs rest, kvs ≠ [] → jsonSafeMembers kvs = true → jsizeMembers kvs ≤ fuel →
      nonDigitHead rest →
      parseMembers fuel (jsonCharsMembers kvs ++ '}' :: rest) = some (kvs, rest)) := by
  intro fuel
  induction fuel with
  | zero =>
    refine ⟨?_, ?_, ?_⟩
    · intro j rest _ hle _
      have := jsize_pos j
      omega
    · intro xs rest hne _ hle _
      cases xs with
      | nil => exact absurd rfl hne
      | cons x xs => simp [jsizeElems] at hle
    · intro kvs rest hne _ hle _
      cases kvs with
      | nil => exact absurd rfl hne
      | cons kv kvs => simp [jsizeMembers] at hle
  | succ f ih =>
    obtain ⟨ihv, ihe, ihm⟩ := ih
    refine ⟨?_, ?_, ?_⟩
    · intro j rest hsafe hle hrest
      cases j with
      | undefined => simp [jsonSafe] at hsafe
      | null =>
        have hj : jsonChars JsValue.null ++ rest = 'n' :: 'u' :: 'l' :: 'l' :: rest := by
          simp [jsonChars]
        rw [hj]
        exact rfl
      | bool b =>
        cases b with
        | true =>
          have hj : jsonChars (JsValue.bool true) ++ rest = 't' :: 'r' :: 'u' :: 'e' :: rest := by
            simp [jsonChars]
          rw [hj]
          exact rfl
        | false =>
          have hj : jsonChars (JsValue.bool false) ++ rest =
              'f' :: 'a' :: 'l' :: 's' :: 'e' :: rest := by
            simp [jsonChars]
          rw [hj]
          exact rfl
      | num i =>
        cases i with
        | ofNat n =>
          obtain ⟨c, cs, hc⟩ : ∃ c cs, natChars n = c :: cs := by
            cases h : natChars n with
            | nil => exact absurd h (natChars_ne_nil n)
            | cons c cs => exact ⟨c, cs, rfl⟩
          have hdig : c.isDigit = true := natChars_all_digits n c (by rw [hc]; simp)
          have hj : jsonChars (JsValue.num (Int.ofNat n)) ++ rest = c :: (cs ++ rest) := by
            simp [jsonChars, intChars, hc]
          rw [hj]
          rw [parseVal_default f c (cs ++ rest) (isDigit_not_ws hdig)
            (isDigit_ne hdig (by decide)) (isDigit_ne hdig (by decide))
            (isDigit_ne hdig (by decide)) (isDigit_ne hdig (by decide))
            (isDigit_ne hdig (by decide)) (isDigit_ne hdig (by decide))
            (isDigit_ne hdig (by decide))]
          rw [show c :: (cs ++ rest) = (c :: cs) ++ rest from rfl, ← hc,
            parseNatChars_natChars n rest hrest]
          rfl
        | negSucc m =>
          have hj : jsonChars (JsValue.num (Int.negSucc m)) ++ rest =
              '-' :: (natChars (m + 1) ++ rest) := by
            simp [jsonChars, intChars]
          rw [hj]
          rw [show parseVal (f + 1) ('-' :: (natChars (m + 1) ++ rest)) =
            (parseNatChars (natChars (m + 1) ++ rest)).map
              (fun p => (JsValue.num (-(p.1 : Int)), p.2)) from rfl]
          rw [parseNatChars_natChars (m + 1) rest hrest]
          have hneg : (-((m + 1 : Nat) : Int)) = Int.negSucc m := by
            rw [Int.negSucc_eq]
            omega
          exact congrArg (fun z => some (JsValue.num z, rest)) hneg
      | str s =>
        have hj : jsonChars (JsValue.str s) ++ rest =
            '"' :: (escString s.data ++ '"' :: rest) := by
          simp [jsonChars]
        rw [hj]
        rw [show parseVal (f + 1) ('"' :: (escString s.data ++ '"' :: rest)) =
          (parseStringBody (escString s.data ++ '"' :: rest)).map
            (fun p => (JsValue.str (String.mk p.1), p.2)) from rfl]
        rw [parseStringBody_esc]
        exact rfl
      | arr xs =>
        cases xs with
        | nil =>
          have hj : jsonChars (JsValue.arr []) ++ rest = '[' :: ']' :: rest := by
            simp [jsonChars, jsonCharsElems]
          rw [hj]
          exact rfl
        | cons x xs' =>
          obtain ⟨c0, t0, hx, hws0, hne0⟩ := jsonChars_head x
          have hsafe' : jsonSafeElems (x :: xs') = true := by simpa [jsonSafe] using hsafe
          have hfe : jsizeElems (x :: xs') ≤ f := by
            simp only [jsize] at hle
            omega
          have hj : jsonChars (JsValue.arr (x :: xs')) ++ rest =
              '[' :: (jsonCharsElems (x :: xs') ++ ']' :: rest) := by
            simp [jsonChars]
          rw [hj]
          obtain ⟨t1, ht1⟩ : ∃ t1, jsonCharsElems (x :: xs') ++ ']' :: rest = c0 :: t1 := by
            cases xs' <;> simp [jsonCharsElems, hx]
          rw [parseVal_arr_go f _ t1 c0 (by rw [ht1]; exact skipWs_not_ws hws0 t1) hne0]
          rw [ihe (x :: xs') rest (by simp) hsafe' hfe hrest]
          exact rfl
      | obj kvs =>
        cases kvs with
        | nil =>
          have hj : jsonChars (JsValue.obj []) ++ rest = '{' :: '}' :: rest := by
            simp [jsonChars, jsonCharsMembers]
          rw [hj]
          exact rfl
        | cons kv kvs' =>
          have hsafe' : jsonSafeMembers (kv :: kvs') = true := by
            simp only [jsonSafe, Bool.and_eq_true] at hsafe
            exact hsafe.2
          have hfm : jsizeMembers (kv :: kvs') ≤ f := by
            simp only [jsize] at hle
            omega
          have hv : isUndef kv.2 = false := by
            apply jsonSafe_not_undef
            simp only [jsonSafeMembers, Bool.and_eq_true] at hsafe'
            exact hsafe'.1
          have hj : jsonChars (JsValue.obj (kv :: kvs')) ++ rest =
              '{' :: (jsonCharsMembers (kv :: kvs') ++ '}' :: rest) := by
            simp [jsonChars]
          rw [hj]
          obtain ⟨t1, ht1⟩ : ∃ t1, jsonCharsMembers (kv :: kvs') ++ '}' :: rest = '"' :: t1 := by
            obtain ⟨k, v⟩ := kv
            have hv2 : isUndef v = false := hv
            simp only [jsonCharsMembers, hv2]
            cases hasDefinedMember kvs' <;> simp
          rw [parseVal_obj_go f _ t1 '"' (by rw [ht1]; exact skipWs_not_ws (by decide) t1)
            (by decide)]
          rw [ihm (kv :: kvs') rest (by simp) hsafe' hfm hrest]
          exact rfl
    · intro xs rest hne hsafe hle hrest
      cases xs with
      | nil => exact absurd rfl hne
      | cons x xs' =>
        have hsx : jsonSafe x = true := by
          simp only [jsonSafeElems, Bool.and_eq_true] at hsafe
          exact hsafe.1
        have hsx' : jsonSafeElems xs' = true := by
          simp only [jsonSafeElems, Bool.and_eq_true] at hsafe
          exact hsafe.2
        cases xs' with
        | nil =>
          have hfx : jsize x ≤ f := by
            simp only [jsizeElems] at hle
            omega
          have hshape : jsonCharsElems [x] ++ ']' :: rest = jsonChars x ++ ']' :: rest := by
            simp [jsonCharsElems]
          rw [hshape]
          rw [show parseElems (f + 1) (jsonChars x ++ ']' :: rest) =
            (match parseVal f (jsonChars x ++ ']' :: rest) with
              | none => none
              | some (v, r) =>
                match skipWs r with
                | ',' :: r2 => (parseElems f r2).map (fun p => (v :: p.1, p.2))
                | ']' :: r2 => some ([v], r2)
                | _ => none : Option (List JsValue × List Char)) from rfl]
          rw [ihv x (']' :: rest) hsx hfx (by simp [nonDigitHead])]
          exact rfl
        | cons y ys =>
          have hfx : jsize x ≤ f := by
            simp only [jsizeElems] at hle
            omega
          have hfe' : jsizeElems (y :: ys) ≤ f := by
            have := jsize_pos x
            simp only [jsizeElems] at hle ⊢
            omega
          have hshape : jsonCharsElems (x :: y :: ys) ++ ']' :: rest =
              jsonChars x ++ (',' :: (jsonCharsElems (y :: ys) ++ ']' :: rest)) := by
            simp [jsonCharsElems]
          rw [hshape]
          rw [show parseElems (f + 1)
              (jsonChars x ++ (',' :: (jsonCharsElems (y :: ys) ++ ']' :: rest))) =
            (match parseVal f (jsonChars x ++ (',' :: (jsonCharsElems (y :: ys) ++ ']' :: rest)))
                with
              | none => none
              | some (v, r) =>
                match skipWs r with
                | ',' :: r2 => (parseElems f r2).map (fun p => (v :: p.1, p.2))
                | ']' :: r2 => some ([v], r2)
                | _ => none : Option (List JsValue × List Char)) from rfl]
          rw [ihv x (',' :: (jsonCharsElems (y :: ys) ++ ']' :: rest)) hsx hfx
            (by simp [nonDigitHead])]
          change (parseElems f (jsonCharsElems (y :: ys) ++ ']' :: rest)).map
            (fun p => (x :: p.1, p.2)) = _
          rw [ihe (y :: ys) rest (by simp) hsx' hfe' hrest]
          exact rfl
    · intro kvs rest hne hsafe hle hrest
      cases kvs with
      | nil => exact absurd rfl hne
      | cons kv kvs' =>
        obtain ⟨k, v⟩ := kv
        have hsv : jsonSafe v = true := by
          simp only [jsonSafeMembers, Bool.and_eq_true] at hsafe
          exact hsafe.1
        have hsm' : jsonSafeMembers kvs' = true := by
          simp only [jsonSafeMembers, Bool.and_eq_true] at hsafe
          exact hsafe.2
        have hv : isUndef v = false := jsonSafe_not_undef hsv
        cases kvs' with
        | nil =>
          have hfv : jsize v ≤ f := by
            simp only [jsizeMembers] at hle
            omega
          have hm : jsonCharsMembers [(k, v)] ++ '}' :: rest =
              '"' :: (escString k.data ++ '"' :: (':' :: (jsonChars v ++ '}' :: rest))) := by
            simp [jsonCharsMembers, hv, hasDefinedMember]
          rw [hm]
          rw [show parseMembers (f + 1)
              ('"' :: (escString k.data ++ '"' :: (':' :: (jsonChars v ++ '}' :: rest)))) =
            (match parseStringBody (escString k.data ++ '"' ::
                (':' :: (jsonChars v ++ '}' :: rest))) with
              | none => none
              | some (kk, rest1) =>
                match skipWs rest1 with
                | ':' :: rest2 =>
                  match parseVal f rest2 with
                  | none => none
                  | some (vv, rest3) =>
                    match skipWs rest3 with
                    | ',' :: r => (parseMembers f r).map
                        (fun p => ((String.mk kk, vv) :: p.1, p.2))
                    | '}' :: r => some ([(String.mk kk, vv)], r)
                    | _ => none
                | _ => none : Option (List (String × JsValue) × List Char)) from rfl]
          rw [parseStringBody_esc]
          change (match parseVal f (jsonChars v ++ '}' :: rest) with
            | none => none
            | some (vv, rest3) =>
              match skipWs rest3 with
              | ',' :: r => (parseMembers f r).map
                  (fun p => ((String.mk k.data, vv) :: p.1, p.2))
              | '}' :: r => some ([(String.mk k.data, vv)], r)
              | _ => none : Option (List (String × JsValue) × List Char)) = _
          rw [ihv v ('}' :: rest) hsv hfv (by simp [nonDigitHead])]
          exact rfl
        | cons kv2 kvs'' =>
          have hfv : jsize v ≤ f := by
            simp only [jsizeMembers] at hle
            omega
          have hfm' : jsizeMembers (kv2 :: kvs'') ≤ f := by
            have := jsize_pos v
            simp only [jsizeMembers] at hle ⊢
            omega
          have hd2 : hasDefinedMember (kv2 :: kvs'') = true := by
            have h2 : isUndef kv2.2 = false := by
              apply jsonSafe_not_undef
              simp only [jsonSafeMembers, Bool.and_eq_true] at hsm'
              exact hsm'.1
            simp [hasDefinedMember, h2]
          have hm : jsonCharsMembers ((k, v) :: kv2 :: kvs'') ++ '}' :: rest =
              '"' :: (escString k.data ++ '"' :: (':' :: (jsonChars v ++
                ',' :: (jsonCharsMembers (kv2 :: kvs'') ++ '}' :: rest)))) := by
            rw [show jsonCharsMembers ((k, v) :: kv2 :: kvs'') =
              (if isUndef v then jsonCharsMembers (kv2 :: kvs'')
              else if hasDefinedMember (kv2 :: kvs'') then
                '"' :: escString k.data ++ '"' :: ':' :: jsonChars v ++
                  ',' :: jsonCharsMembers (kv2 :: kvs'')
              else
                '"' :: escString k.data ++ '"' :: ':' :: jsonChars v ++
                  jsonCharsMembers (kv2 :: kvs'')) from by simp [jsonCharsMembers]]
            rw [hv, hd2]
            simp
          rw [hm]
          rw [show parseMembers (f + 1)
              ('"' :: (escString k.data ++ '"' :: (':' :: (jsonChars v ++
                ',' :: (jsonCharsMembers (kv2 :: kvs'') ++ '}' :: rest))))) =
            (match parseStringBody (escString k.data ++ '"' :: (':' :: (jsonChars v ++
                ',' :: (jsonCharsMembers (kv2 :: kvs'') ++ '}' :: rest)))) with
              | none => none
              | some (kk, rest1) =>
                match skipWs rest1 with
                | ':' :: rest2 =>
                  match parseVal f rest2 with
                  | none => none
                  | some (vv, rest3) =>
                    match skipWs rest3 with
                    | ',' :: r => (parseMembers f r).map
                        (fun p => ((String.mk kk, vv) :: p.1, p.2))
                    | '}' :: r => some ([(String.mk kk, vv)], r)
                    | _ => none
                | _ => none : Option (List (String × JsValue) × List Char)) from rfl]
          rw [parseStringBody_esc]
          change (match parseVal f (jsonChars v ++
              ',' :: (jsonCharsMembers (kv2 :: kvs'') ++ '}' :: rest)) with
            | none => none
            | some (vv, rest3) =>
              match skipWs rest3 with
              | ',' :: r => (parseMembers f r).map
                  (fun p => ((String.mk k.data, vv) :: p.1, p.2))
              | '}' :: r => some ([(String.mk k.data, vv)], r)
              | _ => none : Option (List (String × JsValue) × List Char)) = _
          rw [ihv v (',' :: (jsonCharsMembers (kv2 :: kvs'') ++ '}' :: rest)) hsv hfv
            (by simp [nonDigitHead])]
          change (parseMembers f (jsonCharsMembers (kv2 :: kvs'') ++ '}' :: rest)).map
            (fun p => ((String.mk k.data, v) :: p.1, p.2)) = _
          rw [ihm (kv2 :: kvs'') rest (by simp) hsm' hfm' hrest]
          exact rfl

mutual

theorem jsize_le_len : ∀ (j : JsValue), jsonSafe j = true → jsize j ≤ (jsonChars j).length
  | .undefined, h => by simp [jsonSafe] at h
  | .null, _ => by simp [jsonChars, jsize]
  | .bool true, _ => by simp [jsonChars, jsize]
  | .bool false, _ => by simp [jsonChars, jsize]
  | .num i, _ => by
    have h1 : jsonChars (JsValue.num i) = intChars i := by simp [jsonChars]
    have h2 : intChars i ≠ [] := by
      cases i with
      | ofNat n => simp [intChars, natChars_ne_nil n]
      | negSucc m => simp [intChars]
    have h3 : 1 ≤ (intChars i).length := by
      cases hi : intChars i with
      | nil => exact absurd hi h2
      | cons c cs => simp
    simp only [h1, jsize]
    omega
  | .str s, _ => by
    simp only [jsonChars, jsize, List.length_cons, List.length_append]
    omega
  | .arr xs, h => by
    have he := jsizeElems_le_len xs (by simpa [jsonSafe] using h)
    simp only [jsonChars, jsize, List.length_cons, List.length_append, List.length_nil]
    omega
  | .obj kvs, h => by
    have hm := jsizeMembers_le_len kvs (by
      simp only [jsonSafe, Bool.and_eq_true] at h
      exact h.2)
    simp only [jsonChars, jsize, List.length_cons, List.length_append, List.length_nil]
    omega

theorem jsizeElems_le_len : ∀ (xs : List JsValue), jsonSafeElems xs = true →
    jsizeElems xs ≤ (jsonCharsElems xs).length + 1
  | [], _ => by simp [jsizeElems]
  | [x], h => by
    have h1 := jsize_le_len x (by
      simp only [jsonSafeElems, Bool.and_eq_true] at h
      exact h.1)
    simp only [jsonCharsElems, jsizeElems]
    omega
  | x :: y :: ys, h => by
    have h1 := jsize_le_len x (by
      simp only [jsonSafeElems, Bool.and_eq_true] at h
      exact h.1)
    have h2 := jsizeElems_le_len (y :: ys) (by
      simp only [jsonSafeElems, Bool.and_eq_true] at h ⊢
      exact h.2)
    simp only [jsonCharsElems, jsizeElems, List.length_append, List.length_cons] at h2 ⊢
    omega

theorem jsizeMembers_le_len : ∀ (kvs : List (String × JsValue)), jsonSafeMembers kvs = true →
    jsizeMembers kvs ≤ (jsonCharsMembers kvs).length + 1
  | [], _ => by simp [jsizeMembers]
  | (k, v) :: kvs, h => by
    have hsv : jsonSafe v = true := by
      simp only [jsonSafeMembers, Bool.and_eq_true] at h
      exact h.1
    have hv : isUndef v = false := jsonSafe_not_undef hsv
    have h1 := jsize_le_len v hsv
    have h2 := jsizeMembers_le_len kvs (by
      simp only [jsonSafeMembers, Bool.and_eq_true] at h
      exact h.2)
    have hstep : jsonCharsMembers ((k, v) :: kvs) =
        (if hasDefinedMember kvs then
          '"' :: escString k.data ++ '"' :: ':' :: jsonChars v ++ ',' :: jsonCharsMembers kvs
        else
          '"' :: escString k.data ++ '"' :: ':' :: jsonChars v ++ jsonCharsMembers kvs) := by
      simp [jsonCharsMembers, hv]
    cases hd : hasDefinedMember kvs with
    | false =>
      have hc : jsonCharsMembers ((k, v) :: kvs) =
          '"' :: escString k.data ++ '"' :: ':' :: jsonChars v ++ jsonCharsMembers kvs := by
        rw [hstep, hd]
        simp
      rw [hc]
      simp only [jsizeMembers, List.length_append, List.length_cons]
      omega
    | true =>
      have hc : jsonCharsMembers ((k, v) :: kvs) =
          '"' :: escString k.data ++ '"' :: ':' :: jsonChars v ++
            ',' :: jsonCharsMembers kvs := by
        rw [hstep, hd]
        simp
      rw [hc]
      simp only [jsizeMembers, List.length_append, List.length_cons]
      omega

end

/-- The model of JSON.parse inverts the model of JSON.stringify on every
JSON-safe value. -/
theorem jsonParse_jsonEncode (v : JsValue) (h : jsonSafe v = true) :
    jsonParse (jsonEncode v) = .ok v := by
  unfold jsonParse jsonEncode
  have hd : (String.mk (jsonChars v)).data = jsonChars v := rfl
  rw [hd]
  have hfuel : jsize v ≤ (jsonChars v).length + 1 :=
    le_trans (jsize_le_len v h) (by omega)
  have hp := (parse_correct ((jsonChars v).length + 1)).1 v [] h hfuel (by simp [nonDigitHead])
  rw [List.append_nil] at hp
  rw [hp]
  exact rfl

/-! ## Media type tests (the type-is patterns of the source) -/

/-- Strip media type parameters, trim surrounding whitespace and lowercase:
the normalization the type-is library applies before matching. -/
def normalizeMT (s : String) : List Char :=
  (((s.data.takeWhile (fun c => c ≠ ';')).dropWhile isWsChar).reverse.dropWhile
    isWsChar).reverse.map Char.toLower

/-- Is the first list a prefix of the second? -/
def pfxOf : List Char → List Char → Bool
  | [], _ => true
  | _ :: _, [] => false
  | c :: cs, d :: ds => c = d && pfxOf cs ds

/-- Is the first list a suffix of the second? -/
def sfxOf (a b : List Char) : Bool := pfxOf a.reverse b.reverse

/-- The test of the first serializer entry: the type-is patterns
application/json and application/*+json. -/
def isJsonMT (value : String) : Bool :=
  let t := normalizeMT value
  t = "application/json".data || (pfxOf "application/".data t && sfxOf "+json".data t)

/-- The test of the second serializer entry: the type-is patterns
application/xml and application/*+xml. -/
def isXmlMT (value : String) : Bool :=
  let t := normalizeMT value
  t = "application/xml".data || (pfxOf "application/".data t && sfxOf "+xml".data t)

/-- The test of the third serializer entry: the type-is pattern for the text
family. -/
def isTextMT (value : String) : Bool :=
  pfxOf "text/".data (normalizeMT value)

/-! ## Serializers and serialize -/

/-- Modelled from the spec: the fast-xml-parser XMLBuilder wraps the body
under a fixed root element named xml. Its precise text is irrelevant to every
claim settled here; only that it is a string distinct from the body. -/
def xmlBuild (v : JsValue) : String :=
  "<xml>" ++ jsonEncode v ++ "</xml>"

/-- One entry of the serializers table: a content-type test and the
serializer, which may throw. -/
structure SerializerEntry where
  test : String → Bool
  serializer : JsValue → Except JsError JsValue

/-- The application/json serializer: JSON.stringify. -/
def jsonSerializerFn (data : JsValue) : Except JsError JsValue :=
  match jsStringify data with
  | some s => .ok (.str s)
  | none => .ok .undefined

/-- The application/xml serializer: pass strings through, build XML
otherwise. -/
def xmlSerializerFn (data : JsValue) : Except JsError JsValue :=
  match data with
  | .str s => .ok (.str s)
  | _ => .ok (.str (xmlBuild data))

/-- The text serializer: a string or undefined body passes through unchanged;
anything else throws the tagged NO_COMPLEX_OBJECT_TEXT error with status
500. -/
def textSerializerFn (data : JsValue) : Except JsError JsValue :=
  if typeofStr data = "string" ∨ typeofStr data = "undefined" then .ok data
  else
    .error
      { name := "https://stoplight.io/prism/errors#NO_COMPLEX_OBJECT_TEXT"
        message := "Cannot serialise complex objects as text"
        detail := some "Cannot serialise complex objects as text"
        status := some 500 }

/-- The serializers table, in source order: JSON, XML, text. -/
def serializers : List SerializerEntry :=
  [⟨isJsonMT, jsonSerializerFn⟩, ⟨isXmlMT, xmlSerializerFn⟩, ⟨isTextMT, textSerializerFn⟩]

/-- JavaScript falsiness of an optional string: undefined and the empty
string are falsy. -/
def strFalsy : Option String → Bool
  | none => true
  | some s => s.isEmpty

/-- The serialize function of the source: return undefined when both content
type and payload are falsy; otherwise look up a serializer by content type;
with no serializer, a string payload passes through and anything else throws
a plain no-serializer Error carrying no status; with a serializer, apply it
(it may itself throw). -/
def serialize (payload : JsValue) (contentType : Option String) : Except JsError JsValue :=
  if strFalsy contentType ∧ truthy payload = false then .ok .undefined
  else
    match
      (match contentType with
      | some ct =>
        if ct.isEmpty then none
        else serializers.find? (fun e : SerializerEntry => e.test ct)
      | none => none) with
    | some entry => entry.serializer payload
    | none =>
      if typeofStr payload = "string" then .ok payload
      else
        .error
          { name := "Error"
            message := "Cannot find serializer for " ++
              (match contentType with | some ct => ct | none => "undefined")
            status := none }

/-! ## The Fetch Headers object -/

/-- ASCII lowercasing of a header name, character by character (header names
are ASCII tokens, on which this is exactly the Headers normalization). -/
def strLower (s : String) : String :=
  String.mk (s.data.map Char.toLower)

/-- A Headers object: an association list whose keys are stored lowercased,
set replacing any previous entry of the same name, as the Fetch Headers class
behaves for the single-valued headers this adapter uses. -/
def hset (h : List (String × String)) (k v : String) : List (String × String) :=
  (strLower k, v) :: h.filter (fun p => p.1 ≠ strLower k)

/-- Headers.get, where present names yield their value: the Option layer
carries presence; the JavaScript null result of an absent name is the none
case. -/
def hget (h : List (String × String)) (k : String) : Option String :=
  (h.find? (fun p => p.1 = strLower k)).map (fun p => p.2)

/-- Building a Headers object from an initializer copies every pair in
order. -/
def newHeaders (init : List (String × String)) : List (String × String) :=
  init.foldl (fun h p => hset h p.1 p.2) []

theorem find?_filter_ne (l : List (String × String)) (k q : String) (hne : q ≠ k) :
    List.find? (fun p => p.1 = q) (l.filter (fun p => p.1 ≠ k)) =
      List.find? (fun p => p.1 = q) l := by
  induction l with
  | nil => rfl
  | cons p t ih =>
    by_cases hp : p.1 = k
    · rw [List.filter_cons_of_neg (by simp [hp])]
      rw [List.find?_cons_of_neg _ (by simp [hp]; exact fun hc => absurd rfl (hc ▸ hne))]
      exact ih
    · rw [List.filter_cons_of_pos (by simp [hp])]
      by_cases hq : p.1 = q
      · rw [List.find?_cons_of_pos _ (by simp [hq]), List.find?_cons_of_pos _ (by simp [hq])]
      · rw [List.find?_cons_of_neg _ (by simp [hq]), List.find?_cons_of_neg _ (by simp [hq])]
        exact ih

theorem hget_hset (h : List (String × String)) (k v q : String) :
    hget (hset h k v) q = if strLower q = strLower k then some v else hget h q := by
  unfold hget hset
  split
  · next heq =>
    rw [List.find?_cons_of_pos _ (by simp [heq])]
    simp
  · next hne =>
    rw [List.find?_cons_of_neg _ (by simp; intro hq; exact absurd hq.symm hne)]
    exact congrArg (Option.map (fun p => p.2))
      (find?_filter_ne h (strLower k) (strLower q) hne)

/-! ## Violations (createErrorObjectWithPrefix and addViolationHeader) -/

/-- The createErrorObjectWithPrefix helper of the source: prepend the location
tag to the diagnostic path (an absent path contributes the empty list, and a
present path is kept as is, exactly as the JavaScript disjunction with the
empty array behaves), take the severity name, and carry code and message
over. -/
def createErrorObject (locTag : String) (detail : PrismDiagnostic) : ValidationError :=
  { location := [locTag] ++ (match detail.path with | some p => p | none => [])
    severity := severityName detail.severity
    code := detail.code
    message := detail.message }

/-- The JSON object JSON.stringify sees for one ValidationError, fields in
declaration order; an absent code or message is the undefined value, which
the stringifier drops. -/
def valErrToJs (v : ValidationError) : JsValue :=
  .obj
    [("location", .arr (v.location.map .str)), ("severity", .str v.severity),
      ("code", v.code),
      ("message", match v.message with | some m => .str m | none => .undefined)]

/-- The JSON encoding of a violation list, as the source stringifies it. -/
def encodeViolations (validationErrors : List ValidationError) : String :=
  jsonEncode (.arr (validationErrors.map valErrToJs))

/-- 8kb minus some: the header length cap of the source, 8 * 1024 - 100. -/
def MAX_SAFE_HEADER_LENGTH : Nat := 8 * 1024 - 100

/-- The addViolationHeader function of the source: do nothing on an empty
list; otherwise JSON-encode the list, truncate with the notice prefix when
the encoding is longer than the cap, and set the sl-violations header. -/
def addViolationHeader (replyHeaders : List (String × String))
    (validationErrors : List ValidationError) : List (String × String) :=
  if validationErrors.length = 0 then replyHeaders
  else
    let value := encodeViolations validationErrors
    let value :=
      if MAX_SAFE_HEADER_LENGTH < value.length then
        "Too many violations! " ++ String.mk (value.data.take MAX_SAFE_HEADER_LENGTH)
      else value
    hset replyHeaders "sl-violations" value

/-! ## Problem-detail errors -/

/-- A problem-detail template: a type name, a title and a status. -/
structure ProblemTemplate where
  name : String
  title : String
  status : Nat

/-- Modelled from the spec: the VIOLATIONS problem-detail template of
@stoplight/prism-http, the failure the strict-errors short circuit raises.
Only its identity matters to the claims here, not its exact fields. -/
def VIOLATIONS : ProblemTemplate :=
  { name := "https://stoplight.io/prism/errors#VIOLATIONS"
    title := "Request/Response not valid"
    status := 500 }

/-- Modelled from the spec: the UNPROCESSABLE_ENTITY problem-detail template
of @stoplight/prism-http; per the spec a malformed preference rejects the
request with a 422 problem-detail error. -/
def UNPROCESSABLE_ENTITY : ProblemTemplate :=
  { name := "https://stoplight.io/prism/errors#UNPROCESSABLE_ENTITY"
    title := "Invalid request"
    status := 422 }

/-- Modelled from the spec: ProblemJsonError.fromTemplate of
@stoplight/prism-http builds an error from a template, a detail text and
optional additional data; here the only additional datum used is the
violation list. -/
def ProblemJsonError.fromTemplate (tpl : ProblemTemplate) (detail : String)
    (validation : Option (List ValidationError) := none) : JsError :=
  { name := tpl.name
    message := tpl.title
    status := some tpl.status
    detail := some detail
    validation := validation }

/-- Modelled from the spec: ProblemJsonError.toProblemJson renders a failure
as the problem-detail JSON object: type, title, status, detail and the
validation list when present (absent fields disappear from the encoding). -/
def toProblemJson (e : JsError) : JsValue :=
  .obj
    [("type", .str e.name), ("title", .str e.message),
      ("status", match e.status with | some s => .num s | none => .undefined),
      ("detail", match e.detail with | some d => .str d | none => .undefined),
      ("validation",
        match e.validation with
        | some l => .arr (l.map valErrToJs)
        | none => .undefined)]

/-! ## Preference Resolver (getHttpConfigFromRequest) -/

/-- The candidate preference map handed to the decoder: the three fields the
decoder looks at, each a JavaScript value (a string, the boolean true a
valueless prefer-header token produces, an array from a repeated query
parameter, or undefined when absent). -/
structure RawPrefs where
  code : JsValue := .undefined
  dynamic : JsValue := .undefined
  «example» : JsValue := .undefined

/-- The decoded preferences record. -/
structure DecodedPrefs where
  code : Option Nat := none
  dynamic : Option Bool := none
  «example» : Option String := none

/-- The resolved per-request preferences, with the field names the source
returns. -/
structure RequestPreferences where
  code : Option Nat := none
  exampleKey : Option String := none
  dynamic : Option Bool := none
deriving DecidableEq

/-- Exactly three decimal digits: the regular expression of
IntegerFromString. -/
def isThreeDigits (s : String) : Bool :=
  s.data.length = 3 && s.data.all Char.isDigit

/-- parseInt on a digit string: the numeric value of its decimal digits. -/
def digitsToNat (s : String) : Nat :=
  digitsVal 0 s.data

/-- The code field decoder: io-ts partial skips an undefined field; a string
must be exactly three digits or decoding fails; any other value fails the
string decoder. -/
def decodeCode : JsValue → Except String (Option Nat)
  | .undefined => .ok none
  | .str s =>
    if isThreeDigits s then .ok (some (digitsToNat s))
    else .error ("cannot decode " ++ s ++ ", should be a number")
  | _ => .error "cannot decode value, should be string"

/-- The dynamic field decoder: literally true or false as a string, absent
stays absent. -/
def decodeDynamic : JsValue → Except String (Option Bool)
  | .undefined => .ok none
  | .str s =>
    if s = "true" then .ok (some true)
    else if s = "false" then .ok (some false)
    else .error ("cannot decode " ++ s ++ ", should be a boolean")
  | _ => .error "cannot decode value, should be string"

/-- The example field decoder: any string passes through. -/
def decodeExample : JsValue → Except String (Option String)
  | .undefined => .ok none
  | .str s => .ok (some s)
  | _ => .error "cannot decode value, should be string"

/-- The PreferencesDecoder of the source: the three field decoders of the
io-ts partial combinator; any failing field fails the whole decode. -/
def PreferencesDecoder (p : RawPrefs) : Except String DecodedPrefs := do
  let c ← decodeCode p.code
  let d ← decodeDynamic p.dynamic
  let e ← decodeExample p.«example»
  return { code := c, dynamic := d, «example» := e }

/-- The decode-and-map stage of getHttpConfigFromRequest: a decoder failure
becomes the 422 UNPROCESSABLE_ENTITY problem-detail error carrying the drawn
trail, a success is repackaged into the preferences record. -/
def resolvePreferences (p : RawPrefs) : Except JsError RequestPreferences :=
  match PreferencesDecoder p with
  | .error msg => .error (ProblemJsonError.fromTemplate UNPROCESSABLE_ENTITY msg)
  | .ok d => .ok { code := d.code, exampleKey := d.«example», dynamic := d.dynamic }

/-- Modelled from the spec: the parse-prefer-header library splits the
structured preference header into a flat token map; a token with a value
yields that string, a valueless token yields the boolean true. Only the
three fields the decoder reads are retained. -/
def parsePreferHeader (h : String) : RawPrefs :=
  let tokens := (h.splitOn ";").map (fun t =>
    match (t.trim.splitOn "=") with
    | k :: v :: _ => (k, JsValue.str v)
    | [k] => (k, JsValue.bool true)
    | [] => ("", JsValue.bool true))
  let look := fun (k : String) =>
    match tokens.find? (fun p => p.1 = k) with
    | some p => p.2
    | none => JsValue.undefined
  { code := look "code", dynamic := look "dynamic", «example» := look "example" }

/-- The getHttpConfigFromRequest function of the source: a present prefer
header is parsed into the candidate map, otherwise the three query
parameters supply it; then the decoder stage runs. -/
def getHttpConfigFromRequest (preferHeader : Option String)
    (queryCode queryDynamic queryExample : JsValue) : Except JsError RequestPreferences :=
  resolvePreferences
    (match preferHeader with
    | some h => parsePreferHeader h
    | none => { code := queryCode, dynamic := queryDynamic, «example» := queryExample })

/-! ## Query multimap (searchParamsToNameValues) -/

/-- A value of the normalized query multimap: a single-valued key yields a
scalar string, a multi-valued key an ordered list of strings. -/
inductive QueryValue where
  | scalar : String → QueryValue
  | list : List String → QueryValue
deriving DecidableEq

/-- URLSearchParams.getAll: every value of a key, in occurrence order. -/
def getAllQ (ps : List (String × String)) (k : String) : List String :=
  (ps.filter (fun p => p.1 = k)).map (fun p => p.2)

/-- The searchParamsToNameValues function of the source, denotationally: the
loop writes, for every key the parameter list mentions, the value list of
that key, collapsed to a scalar when it has exactly one element; every
iteration for the same key writes the same value, so the finished object is
this map. -/
def searchParamsToNameValues (ps : List (String × String)) : String → Option QueryValue :=
  fun k =>
    if (ps.map Prod.fst).contains k then
      some
        (let vs := getAllQ ps k
        if vs.length = 1 then .scalar (vs.headD "") else .list vs)
    else none

/-! ## Request Normalizer (parseRequestBody) -/

/-- A transport request as parseRequestBody observes it: the header list and
the text the body reads as (the empty string when no body was provided, which
is what Request.text resolves to). -/
structure JsRequest where
  headers : List (String × String)
  bodyText : String

/-- Fetch Headers.get as the JavaScript strict comparisons of the source see
it: a present header yields its string, an absent one yields null - not
undefined. -/
def headersGetJs (hs : List (String × String)) (k : String) : JsValue :=
  match hget hs k with
  | some v => .str v
  | none => .null

/-- The parseRequestBody function of the source, faithfully including its
comparisons against undefined: content-length of "0" resolves null; the
absent-headers check compares Headers.get results against undefined, which
Headers.get never returns; a JSON-family content type parses the body text as
JSON; anything else resolves the raw text. -/
def parseRequestBody (request : JsRequest) : Except JsError JsValue :=
  if ((match headersGetJs request.headers "content-length" with
      | .str s => s = "0"
      | _ => false)
      || (isUndef (headersGetJs request.headers "transfer-encoding")
        && isUndef (headersGetJs request.headers "content-length"))) then
    .ok .null
  else if
      (match headersGetJs request.headers "content-type" with
      | .str s => isJsonMT s
      | _ => false) then
    jsonParse request.bodyText
  else .ok (.str request.bodyText)

/-! ## Response Synthesizer and Error Translator (createServer) -/

/-- The engine response: status code, header dictionary and body. -/
structure HttpResponseOut where
  statusCode : Nat
  headers : List (String × String)
  body : JsValue

/-- The engine result: the output plus the input-side and output-side
validation lists. -/
structure PrismOutput where
  output : HttpResponseOut
  validationsInput : List PrismDiagnostic
  validationsOutput : List PrismDiagnostic

/-- The transport response the adapter builds. -/
structure ResponseModel where
  status : Nat
  headers : List (String × String)
  body : JsValue

/-- The exact strict-errors message of the source. -/
def strictModeMessage : String :=
  "Your request/response is not valid and the --errors flag is set, so Prism is generating this error for you."

/-- The error-severity output violations: the response-prefixed output
diagnostics whose severity name is Error. -/
def errorOutputViolations (r : PrismOutput) : List ValidationError :=
  (r.validationsOutput.map (createErrorObject "response")).filter
    (fun v => v.severity = severityName .error)

/-- The response-synthesis step the source threads through chainIOEitherK:
build the reply headers, tag and concatenate the validation lists, set the
diagnostics header when violations exist, short-circuit into a left
VIOLATIONS failure when the baseline strict-errors flag is set and an
output violation has Error severity, and otherwise serialize the body and
assemble the response. The outer Except layer is a raw JavaScript throw
escaping the fp-ts channel (a serialize throw is not caught anywhere and
rejects the promise); the inner layer is the fp-ts Either the error
translator consumes. -/
def processEngineOutput (optsErrors : Bool) (r : PrismOutput) :
    Except JsError (Except JsError ResponseModel) :=
  let headers := newHeaders r.output.headers
  let inputValidationErrors := r.validationsInput.map (createErrorObject "request")
  let outputValidationErrors := r.validationsOutput.map (createErrorObject "response")
  let inputOutputValidationErrors := inputValidationErrors ++ outputValidationErrors
  let headers :=
    if 0 < inputOutputValidationErrors.length then
      addViolationHeader headers inputOutputValidationErrors
    else headers
  let errorViolations :=
    outputValidationErrors.filter (fun v => v.severity = severityName .error)
  if 0 < inputOutputValidationErrors.length ∧ optsErrors = true
      ∧ 0 < errorViolations.length then
    .ok (.error
      (ProblemJsonError.fromTemplate VIOLATIONS strictModeMessage (some errorViolations)))
  else
    match serialize r.output.body (hget headers "content-type") with
    | .ok body => .ok (.ok { status := r.output.statusCode, headers, body })
    | .error thrown => .error thrown

/-- JavaScript disjunction with a numeric default: the status of the
translated error is the attached status when truthy (present and nonzero)
and the default otherwise. -/
def jsOrNum (o : Option Nat) (d : Nat) : Nat :=
  match o with
  | some s => if s = 0 then d else s
  | none => d

/-- The error translator of the source (the TE.orElse handler): fresh
headers with the problem-detail content type, every additional header of the
failure copied on top, the status from the failure defaulting to 500, and
the problem-detail JSON body. Total by construction. -/
def translateError (e : JsError) : ResponseModel :=
  let headers := hset [] "content-type" "application/problem+json"
  let headers :=
    match e.additionalHeaders with
    | some hs => hs.foldl (fun h p => hset h p.1 p.2) headers
    | none => headers
  { status := jsOrNum e.status 500
    headers := headers
    body := .str (jsonEncode (toProblemJson e)) }

/-- The TE.orElse stage of the source: a left in the fp-ts channel is
translated into a right response, a right passes through, and a raw throw
(the outer layer) bypasses the stage entirely - the promise the host awaits
rejects and no response is produced. On the fp-ts channel the stage is total:
it never returns a left. -/
def applyOrElse (res : Except JsError (Except JsError ResponseModel)) :
    Except JsError ResponseModel :=
  match res with
  | .error thrown => .error thrown
  | .ok (.error e) => .ok (translateError e)
  | .ok (.ok resp) => .ok resp

/-- The tail of the request pipeline after the engine returns: the synthesis
step, then the error translator absorbing the fp-ts error channel. -/
def runPipelineTail (optsErrors : Bool) (r : PrismOutput) : Except JsError ResponseModel :=
  applyOrElse (processEngineOutput optsErrors r)

/-- The reply headers the synthesis step attaches to a successful response:
the engine headers copied into a fresh Headers object, with the diagnostics
header set when any violation exists. -/
def synthHeaders (r : PrismOutput) : List (String × String) :=
  let ios := (r.validationsInput.map (createErrorObject "request")) ++
    (r.validationsOutput.map (createErrorObject "response"))
  if 0 < ios.length then addViolationHeader (newHeaders r.output.headers) ios
  else newHeaders r.output.headers

/-! ## Config merge (the requestConfig construction of createServer)

A frame property needs mutable state to be visible, so the configuration
objects live in a small heap of addressed cells; lodash/fp merge is
documented to never mutate its arguments, so the merge allocates a fresh
mock object, and the object spread building the request configuration
allocates a fresh configuration object. The theorem shows the baseline
cells are untouched. -/

/-- The mock sub-object of the configuration, holding the per-request
operation overrides. -/
structure MockObj where
  dynamic : Option Bool := none
  code : Option Nat := none
  exampleKey : Option String := none
deriving DecidableEq

/-- The baseline configuration object: the validation flags, the strict
errors flag, and the address of its mock sub-object. -/
structure ConfigObj where
  checkSecurity : Bool
  validateRequest : Bool
  validateResponse : Bool
  errors : Bool
  mockAddr : Nat
deriving DecidableEq

/-- A heap cell: a mock object or a configuration object. -/
inductive HeapCell where
  | mock : MockObj → HeapCell
  | config : ConfigObj → HeapCell
deriving DecidableEq

/-- The object heap: cells by address, a bump allocator, and the invariant
that addresses at or beyond the allocation frontier are unused. -/
structure Heap where
  cells : Nat → Option HeapCell
  next : Nat
  wf : ∀ n, next ≤ n → cells n = none

/-- The empty heap. -/
def Heap.empty : Heap :=
  { cells := fun _ => none
    next := 0
    wf := fun _ _ => rfl }

/-- Allocate a fresh cell: writes only at the allocation frontier. -/
def Heap.alloc (h : Heap) (c : HeapCell) : Heap × Nat :=
  (⟨fun n => if n = h.next then some c else h.cells n, h.next + 1, by
    intro n hn
    have hne : n ≠ h.next := by omega
    simp only [hne, if_false]
    exact h.wf n (by omega)⟩, h.next)

/-- lodash merge field semantics on the mock options: a defined source field
overrides, an undefined source field leaves the destination field alone. -/
def mergeMockFields (m : MockObj) (p : RequestPreferences) : MockObj :=
  { dynamic := match p.dynamic with | some b => some b | none => m.dynamic
    code := match p.code with | some c => some c | none => m.code
    exampleKey := match p.exampleKey with | some e => some e | none => m.exampleKey }

/-- The requestConfig construction of the source: read the baseline
configuration and its mock sub-object, build the merged mock with lodash/fp
merge (allocating, never writing the source cells), and build the new
configuration object by spreading the baseline with the fresh mock address.
A dangling address leaves the heap unchanged and yields no configuration. -/
def buildRequestConfig (h : Heap) (cfgAddr : Nat) (p : RequestPreferences) :
    Heap × Option Nat :=
  match h.cells cfgAddr with
  | some (.config cfg) =>
    match h.cells cfg.mockAddr with
    | some (.mock m) =>
      let hm := h.alloc (.mock (mergeMockFields m p))
      let hc := hm.1.alloc (.config { cfg with mockAddr := hm.2 })
      (hc.1, some hc.2)
    | _ => (h, none)
  | _ => (h, none)

/-- The last value a name receives among the additional headers, matched
case-insensitively as the Headers class matches names. -/
def lastHeaderVal : List (String × String) → String → Option String
  | [], _ => none
  | p :: t, k =>
    match lastHeaderVal t k with
    | some v => some v
    | none => if strLower p.1 = strLower k then some p.2 else none

theorem hget_foldl_hset (hs : List (String × String)) (h0 : List (String × String))
    (k : String) :
    hget (hs.foldl (fun h p => hset h p.1 p.2) h0) k =
      (match lastHeaderVal hs k with
      | some v => some v
      | none => hget h0 k) := by
  induction hs generalizing h0 with
  | nil => rfl
  | cons p t ih =>
    simp only [List.foldl_cons, lastHeaderVal]
    rw [ih]
    cases hl : lastHeaderVal t k with
    | some v => rfl
    | none =>
      simp only []
      rw [hget_hset]
      by_cases hk : strLower k = strLower p.1
      · rw [if_pos hk, if_pos hk.symm]
      · rw [if_neg hk, if_neg (fun hc => hk hc.symm)]

/-! ## Claim theorems -/

/-- C1: with the strict-errors flag of the baseline configuration enabled and
at least one output-side violation of Error severity, the synthesis step
returns the VIOLATIONS problem-detail failure carrying exactly the
Error-severity output violations, the pipeline answers with the translation
of that failure, and the answer is independent of the engine output record -
its body and status code do not appear in the response. -/
theorem strict_errors_short_circuit (r : PrismOutput)
    (h : ∃ d ∈ r.validationsOutput, d.severity = DiagnosticSeverity.error) :
    processEngineOutput true r =
      .ok (.error (ProblemJsonError.fromTemplate VIOLATIONS strictModeMessage
        (some (errorOutputViolations r)))) ∧
    runPipelineTail true r =
      .ok (translateError (ProblemJsonError.fromTemplate VIOLATIONS strictModeMessage
        (some (errorOutputViolations r)))) ∧
    (∀ out : HttpResponseOut,
      runPipelineTail true { r with output := out } = runPipelineTail true r) := by
  obtain ⟨out0, vin, vout⟩ := r
  obtain ⟨d, hd, hsev⟩ := h
  simp only at hd hsev
  have hmem : createErrorObject "response" d ∈
      (vout.map (createErrorObject "response")).filter
        (fun v => v.severity = severityName .error) := by
    apply List.mem_filter.2
    refine ⟨List.mem_map_of_mem _ hd, ?_⟩
    simp [createErrorObject, hsev]
  have hev : 0 < ((vout.map (createErrorObject "response")).filter
      (fun v => v.severity = severityName .error)).length :=
    List.length_pos_of_mem hmem
  have hallmem : createErrorObject "response" d ∈
      vin.map (createErrorObject "request") ++ vout.map (createErrorObject "response") :=
    List.mem_append.2 (Or.inr (List.mem_map_of_mem _ hd))
  have hall : 0 < (vin.map (createErrorObject "request") ++
      vout.map (createErrorObject "response")).length :=
    List.length_pos_of_mem hallmem
  have hstep : ∀ out : HttpResponseOut,
      processEngineOutput true ⟨out, vin, vout⟩ =
        .ok (.error (ProblemJsonError.fromTemplate VIOLATIONS strictModeMessage
          (some (errorOutputViolations ⟨out0, vin, vout⟩)))) := by
    intro out
    simp only [processEngineOutput]
    rw [if_pos ⟨hall, trivial, hev⟩]
    rfl
  refine ⟨hstep out0, ?_, ?_⟩
  · simp only [runPipelineTail]
    rw [hstep out0]
    rfl
  · intro out
    simp only [runPipelineTail]
    rw [hstep out, hstep out0]

/-- Witness for C1 at a concrete engine result with one Error-severity output
violation. -/
theorem strict_errors_short_circuit_witness :
    runPipelineTail true
      { output := { statusCode := 201, headers := [], body := .str "engine body" }
        validationsInput := []
        validationsOutput := [{ severity := .error, message := some "bad" }] } =
      .ok (translateError (ProblemJsonError.fromTemplate VIOLATIONS strictModeMessage
        (some (errorOutputViolations
          { output := { statusCode := 201, headers := [], body := .str "engine body" }
            validationsInput := []
            validationsOutput := [{ severity := .error, message := some "bad" }] })))) :=
  (strict_errors_short_circuit _
    ⟨{ severity := .error, message := some "bad" }, by simp, rfl⟩).2.1

/-- C2: a request with neither a content-length nor a transfer-encoding
header does NOT get an absent body. The source compares the results of
Headers.get against undefined, but the Fetch Headers.get of an absent name
returns null, so the absent-headers branch never fires - the code's own
comment (return null instead of empty string) and the RFC it cites say the
body should be null - and the body is read as raw text, the empty string. -/
theorem parseRequestBody_missing_headers :
    parseRequestBody { headers := [], bodyText := "" } = .ok (.str "") ∧
    parseRequestBody { headers := [], bodyText := "" } ≠ .ok .null := by
  refine ⟨rfl, ?_⟩
  intro h
  have h1 : parseRequestBody { headers := [], bodyText := "" } = .ok (.str "") := rfl
  rw [h1] at h
  simp at h

/-- C3 (amended): for a non-empty violation list the sl-violations header is
always set; the value is the JSON encoding, truncated behind the
too-many-violations notice exactly when the encoding is longer than
MAX_SAFE_HEADER_LENGTH = 8 * 1024 - 100 = 8092 characters. -/
theorem addViolationHeader_spec (h : List (String × String)) (errs : List ValidationError)
    (hne : errs ≠ []) :
    hget (addViolationHeader h errs) "sl-violations" =
      some
        (if MAX_SAFE_HEADER_LENGTH < (encodeViolations errs).length then
          "Too many violations! " ++
            String.mk ((encodeViolations errs).data.take MAX_SAFE_HEADER_LENGTH)
        else encodeViolations errs) := by
  simp only [addViolationHeader]
  rw [if_neg (by simp [hne])]
  rw [hget_hset]
  rw [if_pos rfl]

/-- Witness for C3 (amended) at a one-element list whose encoding is short:
the header carries the untruncated encoding. -/
theorem addViolationHeader_spec_witness :
    hget (addViolationHeader [] [⟨["response"], "Error", .undefined, some "msg"⟩])
        "sl-violations" =
      some (encodeViolations [⟨["response"], "Error", .undefined, some "msg"⟩]) := by
  rw [addViolationHeader_spec [] _ (by simp)]
  rw [if_neg (by decide)]

/-- A violation whose message is 8041 characters, putting the JSON encoding
at 8100 characters: above the real cap of 8092 but below the 8116 the spec
states. -/
def bigViolation : ValidationError :=
  ⟨["response"], "Error", .undefined, some (String.mk (List.replicate 8041 'a'))⟩

theorem escString_replicate_a : ∀ n : Nat,
    escString (List.replicate n 'a') = List.replicate n 'a' := by
  intro n
  induction n with
  | zero => rfl
  | succ n ih =>
    rw [List.replicate_succ]
    rw [show escString ('a' :: List.replicate n 'a') =
      escChar 'a' ++ escString (List.replicate n 'a') from rfl]
    rw [ih, show escChar 'a' = ['a'] from by decide]
    rfl

theorem encodeViolations_msg_length (l : List Char) :
    (encodeViolations [⟨["response"], "Error", .undefined, some (String.mk l)⟩]).length =
      59 + (escString l).length := by
  have h0 : (encodeViolations
      [⟨["response"], "Error", .undefined, some (String.mk l)⟩]).length =
      (jsonChars (JsValue.arr
        [valErrToJs ⟨["response"], "Error", .undefined, some (String.mk l)⟩])).length := rfl
  rw [h0]
  have e3 : valErrToJs ⟨["response"], "Error", .undefined, some (String.mk l)⟩ =
      .obj [("location", .arr [.str "response"]), ("severity", .str "Error"),
        ("code", .undefined), ("message", .str (String.mk l))] := rfl
  rw [e3]
  rw [show jsonChars (JsValue.arr [JsValue.obj [("location", .arr [.str "response"]),
      ("severity", .str "Error"), ("code", .undefined),
      ("message", .str (String.mk l))]]) =
    '[' :: jsonChars (JsValue.obj [("location", .arr [.str "response"]),
      ("severity", .str "Error"), ("code", .undefined),
      ("message", .str (String.mk l))]) ++ [']'] from by
    simp [jsonChars, jsonCharsElems]]
  rw [show jsonChars (JsValue.obj [("location", .arr [.str "response"]),
      ("severity", .str "Error"), ("code", .undefined),
      ("message", .str (String.mk l))]) =
    '{' :: jsonCharsMembers [("location", .arr [.str "response"]),
      ("severity", .str "Error"), ("code", .undefined),
      ("message", .str (String.mk l))] ++ ['}'] from by simp [jsonChars]]
  rw [show jsonCharsMembers [("location", JsValue.arr [.str "response"]),
      ("severity", .str "Error"), ("code", .undefined),
      ("message", .str (String.mk l))] =
    '"' :: escString "location".data ++ '"' :: ':' ::
      jsonChars (JsValue.arr [.str "response"]) ++ ',' ::
        jsonCharsMembers [("severity", JsValue.str "Error"), ("code", .undefined),
          ("message", .str (String.mk l))] from by
    conv_lhs => rw [jsonCharsMembers]
    rw [if_neg (by decide), if_pos (by simp [hasDefinedMember, isUndef])]]
  rw [show jsonCharsMembers [("severity", JsValue.str "Error"), ("code", .undefined),
      ("message", .str (String.mk l))] =
    '"' :: escString "severity".data ++ '"' :: ':' :: jsonChars (JsValue.str "Error") ++
      ',' :: jsonCharsMembers [("code", JsValue.undefined),
        ("message", .str (String.mk l))] from by
    conv_lhs => rw [jsonCharsMembers]
    rw [if_neg (by decide), if_pos (by simp [hasDefinedMember, isUndef])]]
  rw [show jsonCharsMembers [("code", JsValue.undefined),
      ("message", JsValue.str (String.mk l))] =
    jsonCharsMembers [("message", JsValue.str (String.mk l))] from by
    conv_lhs => rw [jsonCharsMembers]
    rw [if_pos (by decide)]]
  rw [show jsonCharsMembers [("message", JsValue.str (String.mk l))] =
    '"' :: escString "message".data ++ '"' :: ':' :: jsonChars (JsValue.str (String.mk l)) ++
      jsonCharsMembers ([] : List (String × JsValue)) from by
    conv_lhs => rw [jsonCharsMembers]
    rw [if_neg (by simp [isUndef]), if_neg (by simp [hasDefinedMember])]]
  rw [show jsonChars (JsValue.str (String.mk l)) = '"' :: escString l ++ ['"'] from by
    simp [jsonChars]]
  rw [show jsonChars (JsValue.arr [JsValue.str "response"]) =
    '[' :: ('"' :: escString "response".data ++ ['"']) ++ [']'] from by
    simp [jsonChars, jsonCharsElems]]
  rw [show jsonCharsMembers ([] : List (String × JsValue)) = [] from by
    rw [jsonCharsMembers]]
  have hLoc : (escString "location".data).length = 8 := by decide
  have hSev : (escString "severity".data).length = 8 := by decide
  have hMsg : (escString "message".data).length = 7 := by decide
  have hResp : (escString "response".data).length = 8 := by decide
  have hErr : jsonChars (JsValue.str "Error") = '"' :: escString "Error".data ++ ['"'] := by
    simp [jsonChars]
  rw [hErr]
  have hErrLen : (escString "Error".data).length = 5 := by decide
  simp only [List.length_cons, List.length_append, List.length_nil, hLoc, hSev, hMsg,
    hResp, hErrLen]
  omega

theorem encodeViolations_big_length : (encodeViolations [bigViolation]).length = 8100 := by
  have h1 := encodeViolations_msg_length (List.replicate 8041 'a')
  rw [escString_replicate_a, List.length_replicate] at h1
  exact h1

/-- C3 counterexample: the spec's cap of 8116 is wrong - the code caps at
8 * 1024 - 100 = 8092. A violation list whose encoding is 8100 characters
long is at most 8116 characters, so by the claim the header should carry the
untruncated encoding, yet the code truncates it. -/
theorem violation_header_cap_counterexample :
    (encodeViolations [bigViolation]).length = 8100 ∧ 8100 ≤ 8116 ∧
    hget (addViolationHeader [] [bigViolation]) "sl-violations" ≠
      some (encodeViolations [bigViolation]) := by
  refine ⟨encodeViolations_big_length, by omega, ?_⟩
  have hdata : (encodeViolations [bigViolation]).data.length = 8100 := by
    have h := encodeViolations_big_length
    exact h
  have hv : hget (addViolationHeader [] [bigViolation]) "sl-violations" =
      some ("Too many violations! " ++
        String.mk ((encodeViolations [bigViolation]).data.take MAX_SAFE_HEADER_LENGTH)) := by
    simp only [addViolationHeader]
    rw [if_neg (by simp)]
    rw [if_pos (by rw [encodeViolations_big_length]; norm_num [MAX_SAFE_HEADER_LENGTH])]
    rw [hget_hset, if_pos rfl]
  rw [hv]
  intro heq
  have heq2 := Option.some.inj heq
  have hlen := congrArg String.length heq2
  rw [String.length_append] at hlen
  have h1 : ("Too many violations! ").length = 21 := by decide
  have h2 : (String.mk
      ((encodeViolations [bigViolation]).data.take MAX_SAFE_HEADER_LENGTH)).length = 8092 := by
    show ((encodeViolations [bigViolation]).data.take MAX_SAFE_HEADER_LENGTH).length = 8092
    rw [List.length_take, hdata]
    norm_num [MAX_SAFE_HEADER_LENGTH]
  rw [h1, h2, encodeViolations_big_length] at hlen
  omega

/-- C4 (amended): the error translator is total on the fp-ts channel and
produces, for every failure, a response whose status is the attached status
when present and nonzero (500 otherwise, including the JavaScript-falsy
status 0), and whose headers are the problem-detail content type overlaid
with every additional header of the failure - so an additional content-type
header overrides the problem-detail media type. -/
theorem translateError_spec (e : JsError) :
    (translateError e).status = jsOrNum e.status 500 ∧
    (∀ k : String, hget (translateError e).headers k =
      (match lastHeaderVal (match e.additionalHeaders with
          | some hs => hs
          | none => []) k with
      | some v => some v
      | none =>
        if strLower k = "content-type" then some "application/problem+json" else none)) ∧
    applyOrElse (.ok (.error e)) = .ok (translateError e) := by
  refine ⟨rfl, ?_, rfl⟩
  intro k
  cases hah : e.additionalHeaders with
  | none =>
    simp only [translateError, hah]
    rw [hget_hset]
    rw [show strLower "content-type" = "content-type" from by decide]
    cases hl : lastHeaderVal [] k with
    | some v => simp [lastHeaderVal] at hl
    | none =>
      simp only []
      by_cases hk : strLower k = "content-type"
      · rw [if_pos hk, if_pos hk]
      · rw [if_neg hk, if_neg hk]
        simp [hget]
  | some hs =>
    simp only [translateError, hah]
    rw [hget_foldl_hset]
    cases hl : lastHeaderVal hs k with
    | some v => rfl
    | none =>
      simp only []
      rw [hget_hset]
      rw [show strLower "content-type" = "content-type" from by decide]
      by_cases hk : strLower k = "content-type"
      · rw [if_pos hk, if_pos hk]
      · rw [if_neg hk, if_neg hk]
        simp [hget]

/-- C4 counterexample: a failure with attached status 0 and an additional
content-type header. The claim as stated requires the response status to be
the attached status (0) and the content-type to be the problem-detail media
type; the code returns 500 (JavaScript disjunction treats 0 as falsy) and
the additional header wins the content-type. -/
theorem translateError_counterexample :
    ¬((translateError
        ⟨"Error", "boom", some 0, none, some [("content-type", "text/csv")], none⟩).status = 0 ∧
      hget (translateError
          ⟨"Error", "boom", some 0, none,
            some [("content-type", "text/csv")], none⟩).headers "content-type" =
        some "application/problem+json") := by
  intro ⟨h1, h2⟩
  have hs : (translateError
      ⟨"Error", "boom", some 0, none,
        some [("content-type", "text/csv")], none⟩).status = 500 := rfl
  rw [hs] at h1
  exact absurd h1 (by decide)

theorem PreferencesDecoder_ok {p : RawPrefs} {d : DecodedPrefs}
    (h : PreferencesDecoder p = .ok d) :
    decodeCode p.code = .ok d.code ∧ decodeDynamic p.dynamic = .ok d.dynamic ∧
      decodeExample p.«example» = .ok d.«example» := by
  unfold PreferencesDecoder at h
  cases hc : decodeCode p.code with
  | error m =>
    rw [hc] at h
    simp [Bind.bind, Except.bind] at h
  | ok c =>
    rw [hc] at h
    cases hd : decodeDynamic p.dynamic with
    | error m =>
      rw [hd] at h
      simp [Bind.bind, Except.bind] at h
    | ok dy =>
      rw [hd] at h
      cases he : decodeExample p.«example» with
      | error m =>
        rw [he] at h
        simp [Bind.bind, Except.bind, Functor.map, Except.map] at h
      | ok ex =>
        rw [he] at h
        simp only [Bind.bind, Except.bind, Functor.map, Except.map, Pure.pure,
          Except.pure, Except.ok.injEq] at h
        rw [← h]
        exact ⟨rfl, rfl, rfl⟩

theorem PreferencesDecoder_code_error {p : RawPrefs} {msg : String}
    (h : decodeCode p.code = .error msg) : PreferencesDecoder p = .error msg := by
  unfold PreferencesDecoder
  rw [h]
  rfl

theorem resolvePreferences_ok {p : RawPrefs} {r : RequestPreferences}
    (h : resolvePreferences p = .ok r) :
    ∃ d, PreferencesDecoder p = .ok d ∧
      r = { code := d.code, exampleKey := d.«example», dynamic := d.dynamic } := by
  unfold resolvePreferences at h
  cases hd : PreferencesDecoder p with
  | error m => rw [hd] at h; exact absurd h (by simp)
  | ok d =>
    rw [hd] at h
    exact ⟨d, rfl, by injection h with h'; exact h'.symm⟩

theorem decodeCode_str (s : String) :
    decodeCode (.str s) =
      if isThreeDigits s then .ok (some (digitsToNat s))
      else .error ("cannot decode " ++ s ++ ", should be a number") := rfl

/-- C5: for every preference source, a code value that is exactly three
digits resolves to its numeric value, a code value that is not exactly three
digits fails resolution with a 422 problem-detail error (whatever the other
fields hold), and absent fields stay absent. -/
theorem preference_code_resolution :
    (∀ (p : RawPrefs) (s : String) (r : RequestPreferences), p.code = .str s →
      isThreeDigits s = true → resolvePreferences p = .ok r →
      r.code = some (digitsToNat s)) ∧
    (∀ (p : RawPrefs) (s : String), p.code = .str s → isThreeDigits s = false →
      ∃ e, resolvePreferences p = .error e ∧ e.status = some 422) ∧
    (∀ (p : RawPrefs) (r : RequestPreferences), resolvePreferences p = .ok r →
      (p.code = .undefined → r.code = none) ∧
      (p.dynamic = .undefined → r.dynamic = none) ∧
      (p.«example» = .undefined → r.exampleKey = none)) ∧
    (∀ s : String, isThreeDigits s = true →
      resolvePreferences { code := .str s } =
        .ok { code := some (digitsToNat s), exampleKey := none, dynamic := none }) := by
  refine ⟨?_, ?_, ?_, ?_⟩
  · intro p s r hc h3 hok
    obtain ⟨d, hd, hr⟩ := resolvePreferences_ok hok
    have hcode := (PreferencesDecoder_ok hd).1
    rw [hc, decodeCode_str, if_pos h3] at hcode
    injection hcode with h'
    rw [hr]
    simp [← h']
  · intro p s hc h3
    have herr : decodeCode p.code =
        .error ("cannot decode " ++ s ++ ", should be a number") := by
      rw [hc, decodeCode_str, if_neg (by simp [h3])]
    refine ⟨ProblemJsonError.fromTemplate UNPROCESSABLE_ENTITY
      ("cannot decode " ++ s ++ ", should be a number"), ?_, rfl⟩
    unfold resolvePreferences
    rw [PreferencesDecoder_code_error herr]
  · intro p r hok
    obtain ⟨d, hd, hr⟩ := resolvePreferences_ok hok
    obtain ⟨hcode, hdyn, hex⟩ := PreferencesDecoder_ok hd
    refine ⟨?_, ?_, ?_⟩
    · intro hu
      rw [hu] at hcode
      injection hcode with h'
      rw [hr]
      simp [← h']
    · intro hu
      rw [hu] at hdyn
      injection hdyn with h'
      rw [hr]
      simp [← h']
    · intro hu
      rw [hu] at hex
      injection hex with h'
      rw [hr]
      simp [← h']
  · intro s h3
    have hc : decodeCode (JsValue.str s) = .ok (some (digitsToNat s)) := by
      rw [decodeCode_str, if_pos h3]
    unfold resolvePreferences PreferencesDecoder
    rw [show ({ code := .str s } : RawPrefs).code = .str s from rfl, hc]
    rfl

/-- Witness for C5: code 200 resolves to 200, code 20 fails with a 422
problem-detail. -/
theorem preference_code_resolution_witness :
    resolvePreferences { code := .str "200" } =
      .ok { code := some 200, exampleKey := none, dynamic := none } ∧
    (∃ e, resolvePreferences { code := .str "20" } = .error e ∧ e.status = some 422) := by
  constructor
  · have h := preference_code_resolution.2.2.2 "200" (by decide)
    rw [show digitsToNat "200" = 200 from by decide] at h
    exact h
  · exact preference_code_resolution.2.1 { code := .str "20" } "20" rfl (by decide)

theorem getAllQ_mem_keys {ps : List (String × String)} {k : String}
    (h : getAllQ ps k ≠ []) : (ps.map Prod.fst).contains k = true := by
  unfold getAllQ at h
  obtain ⟨v, hv⟩ := List.exists_mem_of_ne_nil _ h
  obtain ⟨p, hp, _⟩ := List.mem_map.1 hv
  have hpk : p.1 = k := by
    have := List.mem_filter.1 hp
    simpa using this.2
  have : k ∈ ps.map Prod.fst :=
    List.mem_map.2 ⟨p, List.mem_of_mem_filter hp, hpk⟩
  simpa using this

/-- C6: the normalized query multimap maps a key occurring exactly once to
the scalar string value, a key occurring more than once to the ordered list
of its values in occurrence order (getAllQ preserves occurrence order by
construction), and an absent key to nothing. -/
theorem query_multimap_spec :
    (∀ (ps : List (String × String)) (k v : String), getAllQ ps k = [v] →
      searchParamsToNameValues ps k = some (.scalar v)) ∧
    (∀ (ps : List (String × String)) (k : String), 2 ≤ (getAllQ ps k).length →
      searchParamsToNameValues ps k = some (.list (getAllQ ps k))) ∧
    (∀ (ps : List (String × String)) (k : String), getAllQ ps k = [] →
      searchParamsToNameValues ps k = none) := by
  refine ⟨?_, ?_, ?_⟩
  · intro ps k v hg
    unfold searchParamsToNameValues
    rw [if_pos (getAllQ_mem_keys (by rw [hg]; simp))]
    rw [hg]
    simp
  · intro ps k h2
    unfold searchParamsToNameValues
    rw [if_pos (getAllQ_mem_keys (by intro hnil; rw [hnil] at h2; simp at h2))]
    rw [if_neg (by omega)]
  · intro ps k hg
    unfold searchParamsToNameValues
    rw [if_neg]
    intro hcon
    have hk : k ∈ ps.map Prod.fst := by simpa using hcon
    obtain ⟨p, hp, hpk⟩ := List.mem_map.1 hk
    have : p.2 ∈ getAllQ ps k := by
      unfold getAllQ
      exact List.mem_map.2 ⟨p, List.mem_filter.2 ⟨hp, by simp [hpk]⟩, rfl⟩
    rw [hg] at this
    simp at this

/-- Witness for C6 on the spec's examples: a=1&a=2 yields the ordered list,
a=1 yields the scalar. -/
theorem query_multimap_spec_witness :
    searchParamsToNameValues [("a", "1"), ("a", "2")] "a" = some (.list ["1", "2"]) ∧
    searchParamsToNameValues [("a", "1")] "a" = some (.scalar "1") := by
  constructor
  · have h := query_multimap_spec.2.1 [("a", "1"), ("a", "2")] "a" (by decide)
    rw [show getAllQ [("a", "1"), ("a", "2")] "a" = ["1", "2"] from by decide] at h
    exact h
  · exact query_multimap_spec.1 [("a", "1")] "a" "1" (by decide)

theorem pfxOf_head {p l : List Char} {c : Char} {cs : List Char} (hp : p = c :: cs)
    (h : pfxOf p l = true) : ∃ t, l = c :: t := by
  subst hp
  cases l with
  | nil => simp [pfxOf] at h
  | cons d ds =>
    simp only [pfxOf, Bool.and_eq_true, decide_eq_true_eq] at h
    exact ⟨ds, by rw [h.1]⟩

theorem isTextMT_not_json {ct : String} (h : isTextMT ct = true) : isJsonMT ct = false := by
  unfold isTextMT at h
  obtain ⟨t, ht⟩ := pfxOf_head (show "text/".data = 't' :: "ext/".data from by decide) h
  simp only [isJsonMT, ht]
  simp [pfxOf]

theorem isTextMT_not_xml {ct : String} (h : isTextMT ct = true) : isXmlMT ct = false := by
  unfold isTextMT at h
  obtain ⟨t, ht⟩ := pfxOf_head (show "text/".data = 't' :: "ext/".data from by decide) h
  simp only [isXmlMT, ht]
  simp [pfxOf]

theorem isTextMT_data_ne_nil {ct : String} (h : isTextMT ct = true) : ct.data ≠ [] := by
  intro he
  unfold isTextMT normalizeMT at h
  rw [he] at h
  revert h
  decide

theorem data_ne_nil_not_empty {ct : String} (h : ct.data ≠ []) : ct.isEmpty = false := by
  cases ct with
  | mk l =>
    cases l with
    | nil => exact absurd rfl h
    | cons c cs =>
      simp only [String.isEmpty]
      have hp := Char.utf8Size_pos c
      simp [String.Pos.ext_iff]
      omega

theorem serialize_text (ct : String) (v : JsValue) (h : isTextMT ct = true) :
    serialize v (some ct) = textSerializerFn v := by
  have hE : ct.isEmpty = false := data_ne_nil_not_empty (isTextMT_data_ne_nil h)
  have hfind : serializers.find? (fun e : SerializerEntry => e.test ct) =
      some ⟨isTextMT, textSerializerFn⟩ := by
    unfold serializers
    rw [List.find?_cons_of_neg _ (by simpa using isTextMT_not_json h),
        List.find?_cons_of_neg _ (by simpa using isTextMT_not_xml h),
        List.find?_cons_of_pos _ (by simpa using h)]
  simp [serialize, strFalsy, hE, hfind]

/-- C7: under a text-family content type a string or undefined (absent) body
passes through serialization unchanged, and any other body fails with the
tagged NO_COMPLEX_OBJECT_TEXT error carrying status 500 and the
cannot-serialise-complex-objects message. -/
theorem text_serializer_spec (ct : String) (v : JsValue) (hct : isTextMT ct = true) :
    ((typeofStr v = "string" ∨ typeofStr v = "undefined") →
      serialize v (some ct) = .ok v) ∧
    ((typeofStr v ≠ "string" ∧ typeofStr v ≠ "undefined") →
      serialize v (some ct) =
        .error ⟨"https://stoplight.io/prism/errors#NO_COMPLEX_OBJECT_TEXT",
          "Cannot serialise complex objects as text", some 500,
          some "Cannot serialise complex objects as text", none, none⟩) := by
  rw [serialize_text ct v hct]
  unfold textSerializerFn
  constructor
  · intro hd
    rw [if_pos hd]
  · intro hd
    rw [if_neg (by tauto)]

/-- Witness for C7: under text/plain the string body hi passes through and an
object body fails with the tagged 500 error. -/
theorem text_serializer_spec_witness :
    serialize (.str "hi") (some "text/plain") = .ok (.str "hi") ∧
    serialize (.obj []) (some "text/plain") =
      .error ⟨"https://stoplight.io/prism/errors#NO_COMPLEX_OBJECT_TEXT",
        "Cannot serialise complex objects as text", some 500,
        some "Cannot serialise complex objects as text", none, none⟩ :=
  ⟨(text_serializer_spec "text/plain" (.str "hi") (by decide)).1 (Or.inl rfl),
   (text_serializer_spec "text/plain" (.obj []) (by decide)).2 (by decide)⟩

theorem isJsonMT_data_ne_nil {ct : String} (h : isJsonMT ct = true) : ct.data ≠ [] := by
  intro he
  unfold isJsonMT normalizeMT at h
  rw [he] at h
  revert h
  decide

theorem serialize_json (ct : String) (v : JsValue) (h : isJsonMT ct = true) :
    serialize v (some ct) = jsonSerializerFn v := by
  have hE : ct.isEmpty = false := data_ne_nil_not_empty (isJsonMT_data_ne_nil h)
  have hfind : serializers.find? (fun e : SerializerEntry => e.test ct) =
      some ⟨isJsonMT, jsonSerializerFn⟩ := by
    unfold serializers
    rw [List.find?_cons_of_pos _ (by simpa using h)]
  simp [serialize, strFalsy, hE, hfind]

theorem jsStringify_of_safe {v : JsValue} (h : jsonSafe v = true) :
    jsStringify v = some (jsonEncode v) := by
  cases v with
  | undefined => exact absurd h (by decide)
  | null => rfl
  | bool b => rfl
  | num n => rfl
  | str s => rfl
  | arr xs => rfl
  | obj kvs => rfl

/-- C8: for every JSON-safe value, serializing under a JSON-family content
type yields exactly the JSON string encoding of the value, and parsing that
string back yields the original value. -/
theorem json_serialize_roundtrip (ct : String) (v : JsValue)
    (hct : isJsonMT ct = true) (hs : jsonSafe v = true) :
    serialize v (some ct) = .ok (.str (jsonEncode v)) ∧
    jsonParse (jsonEncode v) = .ok v := by
  constructor
  · rw [serialize_json ct v hct]
    unfold jsonSerializerFn
    rw [jsStringify_of_safe hs]
  · exact jsonParse_jsonEncode v hs

/-- Witness for C8 on the spec's example: the object body with member a
mapped to 1 under application/json serializes to the expected JSON text and
parses back to the same value. -/
theorem json_serialize_roundtrip_witness :
    serialize (.obj [("a", .num 1)]) (some "application/json") =
      .ok (.str "\x7b\"a\":1\x7d") ∧
    jsonParse "\x7b\"a\":1\x7d" = .ok (.obj [("a", .num 1)]) := by
  have h1 : natChars 1 = ['1'] := by
    rw [natChars.eq_def]
    simp [digitChar]
  have henc : jsonEncode (JsValue.obj [("a", JsValue.num 1)]) = "\x7b\"a\":1\x7d" := by
    show String.mk (jsonChars (JsValue.obj [("a", JsValue.num 1)])) = _
    rw [show jsonChars (JsValue.obj [("a", JsValue.num 1)]) =
        '\x7b' :: ('"' :: escString "a".data ++ '"' :: ':' :: natChars 1 ++ []) ++ ['\x7d'] from rfl]
    rw [h1]
    decide
  have h := json_serialize_roundtrip "application/json" (.obj [("a", .num 1)])
    (by decide) (by decide)
  rw [henc] at h
  exact h

theorem alloc_preserves {h : Heap} {a : Nat} {cell : HeapCell} (c : HeapCell)
    (ha : h.cells a = some cell) : (h.alloc c).1.cells a = some cell := by
  show (if a = h.next then some c else h.cells a) = some cell
  have hne : a ≠ h.next := by
    intro he
    rw [he, h.wf h.next (le_refl _)] at ha
    exact Option.noConfusion ha
  rw [if_neg hne]
  exact ha

/-- C9: building the per-request configuration allocates fresh objects and
never writes the baseline cells: after the merge the baseline configuration
cell and its mock sub-object cell hold exactly the values they held before. -/
theorem config_merge_frame (h : Heap) (cfgAddr : Nat) (cfg : ConfigObj) (m : MockObj)
    (p : RequestPreferences)
    (hc : h.cells cfgAddr = some (.config cfg))
    (hm : h.cells cfg.mockAddr = some (.mock m)) :
    (buildRequestConfig h cfgAddr p).1.cells cfgAddr = some (.config cfg) ∧
    (buildRequestConfig h cfgAddr p).1.cells cfg.mockAddr = some (.mock m) := by
  unfold buildRequestConfig
  simp only [hc, hm]
  exact ⟨alloc_preserves _ (alloc_preserves _ hc),
         alloc_preserves _ (alloc_preserves _ hm)⟩

/-- Witness for C9: a concrete two-cell heap holding the baseline (the mock
at address 0 and the configuration at address 1) is unchanged at both
addresses by a merge carrying every preference field. -/
theorem config_merge_frame_witness :
    (buildRequestConfig
      ((Heap.empty.alloc (.mock ⟨none, none, none⟩)).1.alloc
        (.config ⟨true, true, true, false, 0⟩)).1
      1 ⟨some 201, some "ex", some true⟩).1.cells 1 =
      some (.config ⟨true, true, true, false, 0⟩) ∧
    (buildRequestConfig
      ((Heap.empty.alloc (.mock ⟨none, none, none⟩)).1.alloc
        (.config ⟨true, true, true, false, 0⟩)).1
      1 ⟨some 201, some "ex", some true⟩).1.cells 0 =
      some (.mock ⟨none, none, none⟩) :=
  config_merge_frame _ 1 ⟨true, true, true, false, 0⟩ ⟨none, none, none⟩
    ⟨some 201, some "ex", some true⟩ rfl rfl

theorem serialize_none_nonstring (v : JsValue) (ht : truthy v = true)
    (hs : typeofStr v ≠ "string") :
    serialize v none =
      .error ⟨"Error", "Cannot find serializer for undefined", none, none, none, none⟩ := by
  unfold serialize
  rw [if_neg (by simp [ht])]
  show (if typeofStr v = "string" then Except.ok v else _) = _
  rw [if_neg hs]
  rfl

theorem serialize_none_str (s : String) (hs : s.isEmpty = false) :
    serialize (.str s) none = .ok (.str s) := by
  unfold serialize
  rw [if_neg (by simp [truthy, hs])]
  exact if_pos (show typeofStr (JsValue.str s) = "string" from rfl)

theorem serialize_none_empty : serialize (.str "") none = .ok .undefined := rfl


/-- Counterexample to C10: the no-serializer throw for a truthy non-string
body with no content-type escapes the fp-ts error channel as a raw error (the
awaited promise rejects), so the request is not answered by any
problem-detail response; and the empty string body with no content-type is
not passed through - serialize yields undefined instead of the string. -/
theorem no_serializer_counterexample :
    runPipelineTail false ⟨⟨200, [], .obj [("a", .num 1)]⟩, [], []⟩ =
      .error ⟨"Error", "Cannot find serializer for undefined", none, none, none, none⟩ ∧
    ((Except.error ⟨"Error", "Cannot find serializer for undefined", none, none, none, none⟩ :
        Except JsError ResponseModel) ≠
      Except.ok (translateError
        ⟨"Error", "Cannot find serializer for undefined", none, none, none, none⟩)) ∧
    serialize (.str "") none = .ok .undefined ∧
    (Except.ok JsValue.undefined ≠ (Except.ok (JsValue.str "") : Except JsError JsValue)) := by
  refine ⟨rfl, fun h => Except.noConfusion h, rfl, fun h => ?_⟩
  injection h with h2
  exact JsValue.noConfusion h2

/-- C10 (amended): with no outgoing content-type header and no strict-errors
short-circuit, a truthy non-string body makes serialization throw the plain
no-serializer Error carrying no status, and the throw escapes the fp-ts error
channel: the pipeline result is the raw error (the promise the host awaits
rejects) rather than any translated problem-detail response. A nonempty
string body passes through serialization unchanged, while the empty string
body (falsy) yields an undefined body instead of the string. -/
theorem no_serializer_spec (optsErrors : Bool) (r : PrismOutput)
    (hct : hget (newHeaders r.output.headers) "content-type" = none)
    (hns : optsErrors = false ∨ (errorOutputViolations r).length = 0) :
    (truthy r.output.body = true → typeofStr r.output.body ≠ "string" →
      runPipelineTail optsErrors r =
        .error ⟨"Error", "Cannot find serializer for undefined", none, none, none, none⟩) ∧
    (∀ s, r.output.body = .str s → s.isEmpty = false →
      runPipelineTail optsErrors r = .ok ⟨r.output.statusCode, synthHeaders r, .str s⟩) ∧
    (r.output.body = .str "" →
      runPipelineTail optsErrors r = .ok ⟨r.output.statusCode, synthHeaders r, .undefined⟩) := by
  have hpres : hget (synthHeaders r) "content-type" = none := by
    unfold synthHeaders
    simp only []
    split
    · unfold addViolationHeader
      split
      · exact hct
      · simp only [hget_hset]
        rw [if_neg (by decide)]
        exact hct
    · exact hct
  have hcond : ¬(0 < ((r.validationsInput.map (createErrorObject "request")) ++
        (r.validationsOutput.map (createErrorObject "response"))).length ∧
      optsErrors = true ∧
      0 < ((r.validationsOutput.map (createErrorObject "response")).filter
        (fun v => v.severity = severityName .error)).length) := by
    rintro ⟨-, h2, h3⟩
    rcases hns with h | h
    · rw [h] at h2
      exact Bool.noConfusion h2
    · unfold errorOutputViolations at h
      omega
  have hcore : runPipelineTail optsErrors r =
      applyOrElse (match serialize r.output.body none with
        | .ok body => .ok (.ok ⟨r.output.statusCode, synthHeaders r, body⟩)
        | .error thrown => .error thrown) := by
    unfold runPipelineTail processEngineOutput
    simp only []
    rw [if_neg hcond]
    rw [show hget (if 0 < ((r.validationsInput.map (createErrorObject "request")) ++
          (r.validationsOutput.map (createErrorObject "response"))).length then
          addViolationHeader (newHeaders r.output.headers)
            ((r.validationsInput.map (createErrorObject "request")) ++
             (r.validationsOutput.map (createErrorObject "response")))
        else newHeaders r.output.headers) "content-type" = none from hpres]
    rfl
  refine ⟨?_, ?_, ?_⟩
  · intro ht hs
    rw [hcore, serialize_none_nonstring r.output.body ht hs]
    rfl
  · intro s hb hse
    rw [hcore, hb, serialize_none_str s hse]
    rfl
  · intro hb
    rw [hcore, hb, serialize_none_empty]
    rfl

/-- Witness for C10 (amended): with no headers and no validations, an object
body makes the pipeline reject with the raw no-serializer error, the string
body ok passes through unchanged, and the empty string body becomes an
undefined body. -/
theorem no_serializer_spec_witness :
    runPipelineTail true ⟨⟨201, [], .obj []⟩, [], []⟩ =
      .error ⟨"Error", "Cannot find serializer for undefined", none, none, none, none⟩ ∧
    runPipelineTail true ⟨⟨201, [], .str "ok"⟩, [], []⟩ = .ok ⟨201, [], .str "ok"⟩ ∧
    runPipelineTail true ⟨⟨201, [], .str ""⟩, [], []⟩ = .ok ⟨201, [], .undefined⟩ := by
  refine ⟨?_, ?_, ?_⟩
  · exact (no_serializer_spec true ⟨⟨201, [], .obj []⟩, [], []⟩ (by decide)
      (Or.inr (by decide))).1 (by decide) (by decide)
  · have h := (no_serializer_spec true ⟨⟨201, [], .str "ok"⟩, [], []⟩ (by decide)
      (Or.inr (by decide))).2.1 "ok" rfl (by decide)
    rw [show synthHeaders ⟨⟨201, [], .str "ok"⟩, [], []⟩ = [] from by decide] at h
    exact h
  · have h := (no_serializer_spec true ⟨⟨201, [], .str ""⟩, [], []⟩ (by decide)
      (Or.inr (by decide))).2.2 rfl
    rw [show synthHeaders ⟨⟨201, [], .str ""⟩, [], []⟩ = [] from by decide] at h
    exact h
